import Mathlib

/-!
# `xyz::indirect<T, A>` (indirect_with_allocators.h)

A shallow embedding of the allocator-aware owning box.  The box itself is the
pair `(p_, alloc_)`; everything it does goes through `allocator_traits<A>`
(allocate / construct / destroy / deallocate), which act on an explicit
storage map and are recorded in a call log.  Box objects live in a store
indexed by object identity, so that the two references taken by the binary
operations may or may not alias, exactly as in the source.

External collaborators (the allocator's choice of address, and the
constructors of `T`) are parameters, collected in `Env`.
-/

namespace xyz

/-- Addresses handed out by allocators; `0` is the null pointer. -/
abbrev Ptr := Nat

/-- The null pointer. -/
def nullptr : Ptr := 0

/-- Identity of a box object: a caller-visible object, or the local `tmp` of
`operator=(const indirect&)`. -/
inductive Ref where
  | box (n : Nat)
  | tmp
  deriving DecidableEq, Repr

/-- The data members of `indirect<T, A>`: `T* p_` and `A alloc_`. -/
structure indirect (A : Type) where
  p_ : Ptr
  alloc_ : A
  deriving DecidableEq, Repr

/-- One block of allocated storage: the allocator instance that allocated it,
and the live `T` in it (if any) with the allocator instance that constructed it. -/
structure Cell (A T : Type) where
  allocBy : A
  obj : Option (A × T)

/-- The calls made on `allocator_traits<A>`. -/
inductive Event (A : Type) where
  | allocate (al : A) (r : Option Ptr)
  | construct (al : A) (p : Ptr) (ok : Bool)
  | destroy (al : A) (p : Ptr)
  | deallocate (al : A) (p : Ptr)
  deriving DecidableEq, Repr

/-- Program state: allocated storage, the log of allocator calls, and the live
box objects. -/
structure Machine (A T : Type) where
  cells : Ptr → Option (Cell A T)
  log : List (Event A)
  boxes : Ref → Option (indirect A)

/-- The argument packs with which `construct(alloc_, mem, ...)` is called:
none (value-initialisation), the forwarded `ts...`, or `*other`. -/
inductive CtorArgs (T Args : Type) where
  | default
  | args (ts : Args)
  | copy (v : T)

/-- How a call ends: normally, by an exception that propagates, by a failed
`assert`, or outside the language (use of an object or of storage that does
not exist). -/
inductive Outcome (E S α : Type) where
  | ok (x : α) (s : S)
  | throw (e : E) (s : S)
  | abort (s : S)
  | undefined

/-- The collaborators the header does not define: `A{}`, what
`allocator_traits<A>::allocate(al, 1)` returns in a given state, and what the
constructor of `T` selected by an argument pack produces. -/
structure Env (A T Args E : Type) where
  A_default : A
  allocate_result : Machine A T → A → Except E Ptr
  T_construct : CtorArgs T Args → Except E T

variable {A T Args E : Type}

/-- Pointwise update of a map. -/
def upd {α β : Type} [DecidableEq α] (f : α → β) (a : α) (v : β) : α → β :=
  fun x => if x = a then v else f x

namespace Outcome

variable {S α β : Type}

/-- Sequencing: run `f` on a normal result, pass everything else on. -/
def bind (o : Outcome E S α) (f : α → S → Outcome E S β) : Outcome E S β :=
  match o with
  | .ok x s => f x s
  | .throw e s => .throw e s
  | .abort s => .abort s
  | .undefined => .undefined

/-- The block `try { o } catch (...) { h }`. -/
def try_catch (o : Outcome E S α) (h : E → S → Outcome E S α) : Outcome E S α :=
  match o with
  | .throw e s => h e s
  | r => r

end Outcome

namespace Machine

/-- The state with no storage, no calls and no boxes. -/
def empty : Machine A T := ⟨fun _ => none, [], fun _ => none⟩

/-- Lvalue-to-rvalue conversion of the `T` at `p`. -/
def load (m : Machine A T) (p : Ptr) : Option T :=
  match m.cells p with
  | some c => c.obj.map Prod.snd
  | none => none

/-- Assignment `x = v` through a reference `x` to the `T` at `p`. -/
def store (m : Machine A T) (p : Ptr) (v : T) : Machine A T :=
  { m with cells := (upd m.cells p
      ((m.cells p).map fun c => { c with obj := c.obj.map fun o => (o.1, v) })) }

/-- Assignment `r.p_ = p`. -/
def setP (m : Machine A T) (r : Ref) (p : Ptr) : Machine A T :=
  { m with boxes := upd m.boxes r ((m.boxes r).map fun b => { b with p_ := p }) }

/-- Assignment `r.alloc_ = al`. -/
def setAlloc (m : Machine A T) (r : Ref) (al : A) : Machine A T :=
  { m with boxes := upd m.boxes r ((m.boxes r).map fun b => { b with alloc_ := al }) }

/-- The object `r` begins its lifetime with members `b`. -/
def place (m : Machine A T) (r : Ref) (b : indirect A) : Machine A T :=
  { m with boxes := upd m.boxes r (some b) }

/-- The object `r` ends its lifetime. -/
def drop (m : Machine A T) (r : Ref) : Machine A T :=
  { m with boxes := upd m.boxes r none }

/-- Successful `allocate` calls minus `deallocate` calls in a log. -/
def balance : List (Event A) → Int
  | [] => 0
  | .allocate _ (some _) :: l => balance l + 1
  | .deallocate _ _ :: l => balance l - 1
  | _ :: l => balance l

/-- Allocations made and not yet released. -/
def outstanding (m : Machine A T) : Int := balance m.log

end Machine

namespace allocator_traits

/-- The call `allocator_traits::allocate(al, 1)`. -/
def allocate (env : Env A T Args E) (al : A) (m : Machine A T) :
    Outcome E (Machine A T) Ptr :=
  match env.allocate_result m al with
  | .error e => .throw e { m with log := m.log ++ [.allocate al none] }
  | .ok p => .ok p { m with cells := upd m.cells p (some ⟨al, none⟩),
                            log := m.log ++ [.allocate al (some p)] }

/-- The call `allocator_traits::construct(al, mem, args...)`. -/
def construct (env : Env A T Args E) (al : A) (mem : Ptr) (args : CtorArgs T Args)
    (m : Machine A T) : Outcome E (Machine A T) Unit :=
  match env.T_construct args with
  | .error e => .throw e { m with log := m.log ++ [.construct al mem false] }
  | .ok v => .ok () { m with cells := (upd m.cells mem
                                ((m.cells mem).map fun c => { c with obj := some (al, v) })),
                             log := m.log ++ [.construct al mem true] }

/-- The call `allocator_traits::destroy(al, p)`. -/
def destroy (al : A) (p : Ptr) (m : Machine A T) : Machine A T :=
  { m with cells := upd m.cells p ((m.cells p).map fun c => { c with obj := none }),
           log := m.log ++ [.destroy al p] }

/-- The call `allocator_traits::deallocate(al, p, 1)`. -/
def deallocate (al : A) (p : Ptr) (m : Machine A T) : Machine A T :=
  { m with cells := upd m.cells p none, log := m.log ++ [.deallocate al p] }

end allocator_traits

namespace indirect

open allocator_traits

/-- The constructor `indirect()`. -/
def ctor_default (env : Env A T Args E) (m : Machine A T) :
    Outcome E (Machine A T) (indirect A) :=
  let alloc_ := env.A_default
  (allocate env alloc_ m).bind fun mem m1 =>
    ((construct env alloc_ mem .default m1).bind fun _ m2 =>
        .ok ⟨mem, alloc_⟩ m2).try_catch fun e m2 =>
      .throw e (deallocate alloc_ mem m2)

/-- The constructor `indirect(std::in_place_t, Ts&&... ts)`. -/
def ctor_in_place (env : Env A T Args E) (ts : Args) (m : Machine A T) :
    Outcome E (Machine A T) (indirect A) :=
  let alloc_ := env.A_default
  (allocate env alloc_ m).bind fun mem m1 =>
    ((construct env alloc_ mem (.args ts) m1).bind fun _ m2 =>
        .ok ⟨mem, alloc_⟩ m2).try_catch fun e m2 =>
      .throw e (deallocate alloc_ mem m2)

/-- The constructor
`indirect(std::allocator_arg_t, const A& alloc, std::in_place_t, Ts&&... ts)`. -/
def ctor_allocator_arg (env : Env A T Args E) (alloc : A) (ts : Args) (m : Machine A T) :
    Outcome E (Machine A T) (indirect A) :=
  let alloc_ := alloc
  (allocate env alloc_ m).bind fun mem m1 =>
    ((construct env alloc_ mem (.args ts) m1).bind fun _ m2 =>
        .ok ⟨mem, alloc_⟩ m2).try_catch fun e m2 =>
      .throw e (deallocate alloc_ mem m2)

/-- The member `operator*() const`: the result is the lvalue `*p_`, given by its
address. -/
def op_star_const (this : Ref) (m : Machine A T) : Outcome E (Machine A T) Ptr :=
  match m.boxes this with
  | none => .undefined
  | some b => if b.p_ = nullptr then .abort m else .ok b.p_ m

/-- The member `operator*()`. -/
def op_star (this : Ref) (m : Machine A T) : Outcome E (Machine A T) Ptr :=
  match m.boxes this with
  | none => .undefined
  | some b => if b.p_ = nullptr then .abort m else .ok b.p_ m

/-- The member `operator->() const`. -/
def op_arrow_const (this : Ref) (m : Machine A T) : Outcome E (Machine A T) Ptr :=
  match m.boxes this with
  | none => .undefined
  | some b => if b.p_ = nullptr then .abort m else .ok b.p_ m

/-- The member `operator->()`. -/
def op_arrow (this : Ref) (m : Machine A T) : Outcome E (Machine A T) Ptr :=
  match m.boxes this with
  | none => .undefined
  | some b => if b.p_ = nullptr then .abort m else .ok b.p_ m

/-- The copy constructor `indirect(const indirect& other)`. -/
def ctor_copy (env : Env A T Args E) (other : Ref) (m : Machine A T) :
    Outcome E (Machine A T) (indirect A) :=
  match m.boxes other with
  | none => .undefined
  | some o =>
    let alloc_ := o.alloc_
    if o.p_ = nullptr then .abort m else
    (allocate env alloc_ m).bind fun mem m1 =>
      ((op_star_const other m1).bind fun src m2 =>
        match m2.load src with
        | none => .undefined
        | some v =>
          (construct env alloc_ mem (.copy v) m2).bind fun _ m3 =>
            .ok ⟨mem, alloc_⟩ m3).try_catch fun e m2 =>
        .throw e (deallocate alloc_ mem m2)

/-- The member `swap(indirect& other)`: `std::swap(p_, other.p_)`. -/
def swap (this other : Ref) (m : Machine A T) : Outcome E (Machine A T) Unit :=
  match m.boxes this with
  | none => .undefined
  | some a =>
    let t := a.p_
    match m.boxes other with
    | none => .undefined
    | some b =>
      let m1 := m.setP this b.p_
      .ok () (m1.setP other t)

/-- The friend `swap(indirect& lhs, indirect& rhs)`: `std::swap(lhs.p_, rhs.p_)`. -/
def friend_swap (lhs rhs : Ref) (m : Machine A T) : Outcome E (Machine A T) Unit :=
  match m.boxes lhs with
  | none => .undefined
  | some a =>
    let t := a.p_
    match m.boxes rhs with
    | none => .undefined
    | some b =>
      let m1 := m.setP lhs b.p_
      .ok () (m1.setP rhs t)

/-- The move constructor `indirect(indirect&& other)`; the object under
construction is kept in the result until the constructor returns.  Moving from an
allocator leaves it equal to the allocator moved to, so `other.alloc_` stays. -/
def ctor_move (other : Ref) (m : Machine A T) : Outcome E (Machine A T) (indirect A) :=
  match m.boxes other with
  | none => .undefined
  | some o =>
    let this : indirect A := ⟨nullptr, o.alloc_⟩
    if o.p_ = nullptr then .abort m else
    let t := this.p_
    .ok { this with p_ := o.p_ } (m.setP other t)

/-- The member `valueless_after_move()`. -/
def valueless_after_move (this : Ref) (m : Machine A T) : Outcome E (Machine A T) Bool :=
  match m.boxes this with
  | none => .undefined
  | some b => .ok (decide (b.p_ = nullptr)) m

/-- The private member `reset()`. -/
def reset (this : Ref) (m : Machine A T) : Outcome E (Machine A T) Unit :=
  match m.boxes this with
  | none => .undefined
  | some b =>
    if b.p_ = nullptr then .ok () m else
    let m1 := destroy b.alloc_ b.p_ m
    let m2 := deallocate b.alloc_ b.p_ m1
    .ok () (m2.setP this nullptr)

/-- The destructor `~indirect()`, after which the object is gone. -/
def dtor (this : Ref) (m : Machine A T) : Outcome E (Machine A T) Unit :=
  (reset this m).bind fun _ m1 => .ok () (m1.drop this)

/-- The copy assignment `operator=(const indirect& other)` on the caller-visible
objects `this` and `other`; `tmp` lives from its construction to the end of the
body. -/
def assign_copy (env : Env A T Args E) (this other : Nat) (m : Machine A T) :
    Outcome E (Machine A T) Unit :=
  match m.boxes (.box this), m.boxes (.box other) with
  | some _, some o =>
    if o.p_ = nullptr then .abort m else
    (ctor_copy env (.box other) m).bind fun tmp m1 =>
      (swap (.box this) .tmp (m1.place .tmp tmp)).bind fun _ m2 =>
        dtor .tmp m2
  | _, _ => .undefined

/-- The move assignment `operator=(indirect&& other)`; `this` and `other` may be
the same object.  As in the move constructor, `other.alloc_` keeps its value. -/
def assign_move (this other : Ref) (m : Machine A T) : Outcome E (Machine A T) Unit :=
  match m.boxes this, m.boxes other with
  | some _, some o =>
    if o.p_ = nullptr then .abort m else
    (reset this m).bind fun _ m1 =>
      match m1.boxes other with
      | none => .undefined
      | some o1 =>
        let m2 := m1.setAlloc this o1.alloc_
        match m2.boxes other with
        | none => .undefined
        | some o2 =>
          let m3 := m2.setP other nullptr
          .ok () (m3.setP this o2.p_)
  | _, _ => .undefined

end indirect

/-- The allocator `std::allocator<T>`: it has no state, so one instance. -/
abbrev std_allocator := Unit

/-- The call operator of `std::hash<xyz::indirect<T>>`, given `std::hash<T>`. -/
def hash_indirect (hashT : T → Nat) (key : Ref) (m : Machine std_allocator T) :
    Outcome E (Machine std_allocator T) Nat :=
  (indirect.op_star_const key m).bind fun src m1 =>
    match m1.load src with
    | none => .undefined
    | some v => .ok (hashT v) m1

/-- The statement `*r = w` on a mutable box `r`. -/
def assign_through (r : Ref) (w : T) (m : Machine A T) : Outcome E (Machine A T) Unit :=
  (indirect.op_star r m).bind fun dst m1 => .ok () (m1.store dst w)

/-- The expression `*r` read as a value. -/
def read_through (r : Ref) (m : Machine A T) : Outcome E (Machine A T) T :=
  (indirect.op_star_const r m).bind fun src m1 =>
    match m1.load src with
    | none => .undefined
    | some v => .ok v m1

/-- Allocator pairing of the box `r`: when it is Engaged, its storage was
allocated, and its `T` constructed, by the allocator instance the box holds now. -/
def Machine.paired [DecidableEq A] (m : Machine A T) (r : Ref) : Bool :=
  match m.boxes r with
  | none => true
  | some b =>
    if b.p_ = nullptr then true else
    match m.cells b.p_ with
    | some ⟨allocBy, some (ctorBy, _)⟩ =>
      decide (allocBy = b.alloc_) && decide (ctorBy = b.alloc_)
    | _ => false

/-- Whether a call ended by a failed `assert`. -/
def Outcome.aborted {S α : Type} : Outcome E S α → Bool
  | .abort _ => true
  | _ => false

/-- The state a call leaves behind when it completes, by returning or by
throwing; a failed `assert` ends the program. -/
def Outcome.final {S α : Type} : Outcome E S α → Option S
  | .ok _ s => some s
  | .throw _ s => some s
  | _ => none

/-- The box `r` is alive and owns a pointer. -/
def Machine.engaged (m : Machine A T) (r : Ref) : Bool :=
  match m.boxes r with
  | some b => decide (b.p_ ≠ nullptr)
  | none => false

/-- The box `r` is alive and its pointer is null. -/
def Machine.valueless (m : Machine A T) (r : Ref) : Bool :=
  match m.boxes r with
  | some b => decide (b.p_ = nullptr)
  | none => false

/-- The pointer the box `r` owns; null when `r` is Valueless or not alive. -/
def Machine.owner (m : Machine A T) (r : Ref) : Ptr :=
  match m.boxes r with
  | some b => b.p_
  | none => nullptr

/-- Whether the storage at `p` is allocated. -/
def Machine.allocated (m : Machine A T) (p : Ptr) : Bool := (m.cells p).isSome

/-- The public operations of the box, applied to caller-visible objects. -/
inductive Op (A T Args : Type) where
  | ctor_default (dst : Nat)
  | ctor_in_place (dst : Nat) (ts : Args)
  | ctor_allocator_arg (dst : Nat) (al : A) (ts : Args)
  | ctor_copy (dst src : Nat)
  | ctor_move (dst src : Nat)
  | dtor (r : Nat)
  | assign_copy (dst src : Nat)
  | assign_move (dst src : Nat)
  | star_read (r : Nat)
  | star_write (r : Nat) (v : T)
  | arrow_read (r : Nat)
  | arrow_write (r : Nat) (v : T)
  | swap (a b : Nat)
  | friend_swap (a b : Nat)
  | valueless_after_move (r : Nat)

/-- A declaration `indirect dst(...)`: the constructor call `c`, made in the
state `m`, on the storage of an object `dst` that is not alive. -/
def construct_at (dst : Nat) (m : Machine A T) (c : Outcome E (Machine A T) (indirect A)) :
    Outcome E (Machine A T) Unit :=
  match m.boxes (.box dst) with
  | some _ => .undefined
  | none => c.bind fun b m1 => .ok () (m1.place (.box dst) b)

/-- One public operation, as a caller runs it. -/
def run (env : Env A T Args E) (op : Op A T Args) (m : Machine A T) :
    Outcome E (Machine A T) Unit :=
  match op with
  | .ctor_default dst => construct_at dst m (indirect.ctor_default env m)
  | .ctor_in_place dst ts => construct_at dst m (indirect.ctor_in_place env ts m)
  | .ctor_allocator_arg dst al ts =>
    construct_at dst m (indirect.ctor_allocator_arg env al ts m)
  | .ctor_copy dst src => construct_at dst m (indirect.ctor_copy env (.box src) m)
  | .ctor_move dst src => construct_at dst m (indirect.ctor_move (.box src) m)
  | .dtor r => indirect.dtor (.box r) m
  | .assign_copy dst src => indirect.assign_copy env dst src m
  | .assign_move dst src => indirect.assign_move (.box dst) (.box src) m
  | .star_read r => (read_through (.box r) m).bind fun _ m1 => .ok () m1
  | .star_write r v => assign_through (.box r) v m
  | .arrow_read r =>
    (indirect.op_arrow_const (.box r) m).bind fun src m1 =>
      match m1.load src with
      | none => .undefined
      | some _ => .ok () m1
  | .arrow_write r v =>
    (indirect.op_arrow (.box r) m).bind fun dst m1 => .ok () (m1.store dst v)
  | .swap a b => indirect.swap (.box a) (.box b) m
  | .friend_swap a b => indirect.friend_swap (.box a) (.box b) m
  | .valueless_after_move r =>
    (indirect.valueless_after_move (.box r) m).bind fun _ m1 => .ok () m1

/-- One step: the operation `op` completes from `m` and leaves `m1`. -/
def Step (env : Env A T Args E) (op : Op A T Args) (m m1 : Machine A T) : Prop :=
  (run env op m).final = some m1

/-- The states a program reaches from the empty state by public operations that
complete. -/
inductive Reachable (env : Env A T Args E) : Machine A T → Prop where
  | init : Reachable env Machine.empty
  | step (op : Op A T Args) (m m1 : Machine A T) :
      Reachable env m → Step env op m m1 → Reachable env m1

/-- The ownership discipline, stated on the pointer `o r` each box owns (null for
none), the allocated addresses `al` and the number `n` of outstanding
allocations: no pointer is owned twice, the allocated addresses are exactly the
owned pointers, and there are `n` boxes that own one. -/
structure Owned (o : Ref → Ptr) (al : Ptr → Prop) (n : Int) : Prop where
  unique : ∀ r1 r2, o r1 ≠ nullptr → o r1 = o r2 → r1 = r2
  owned : ∀ p, al p ↔ (p ≠ nullptr ∧ ∃ r, o r = p)
  counted : ∃ s : Finset Ref, (∀ r, r ∈ s ↔ o r ≠ nullptr) ∧ (s.card : Int) = n

/-- The ownership discipline of a state, between calls: `tmp` is not alive. -/
def Machine.Sound (m : Machine A T) : Prop :=
  Owned m.owner (fun p => m.allocated p = true) m.outstanding ∧ m.boxes .tmp = none

/-- The allocator contract: `allocate` returns a non-null address of storage
that is not allocated at the time of the call. -/
def Env.Fresh (env : Env A T Args E) : Prop :=
  ∀ m al p, env.allocate_result m al = .ok p → p ≠ nullptr ∧ m.cells p = none

/-- An allocator over the addresses `1 .. n`: the lowest free address, or
`bad_alloc` when there is none. -/
def arena (n : Nat) (m : Machine A T) (_al : A) : Except String Ptr :=
  match (List.range' 1 n).find? fun p => (m.cells p).isNone with
  | some p => .ok p
  | none => .error "bad_alloc"

/-- The instance `T = int` with allocator instances named by numbers: `int()`
is `0`, `int(n)` is `n`, copying copies; `fails` selects the constructor calls
that throw. -/
def intEnv (fails : CtorArgs Int Int → Bool) : Env Nat Int Int String where
  A_default := 0
  allocate_result := arena 8
  T_construct := fun c =>
    if fails c then .error "ctor" else
    match c with
    | .default => .ok 0
    | .args n => .ok n
    | .copy v => .ok v

/-- No constructor of `int` throws. -/
def noFail : CtorArgs Int Int → Bool := fun _ => false

/-- Every constructor of `int` throws. -/
def allFail : CtorArgs Int Int → Bool := fun _ => true

/-- Only copying throws. -/
def copyFails : CtorArgs Int Int → Bool
  | .copy _ => true
  | _ => false

/-- The instance `T = int` with an allocator that has no storage left: every
`allocate` throws. -/
def noMemEnv : Env Nat Int Int String where
  A_default := 0
  allocate_result := arena 0
  T_construct := fun c =>
    match c with
    | .default => .ok 0
    | .args n => .ok n
    | .copy v => .ok v

/-- The instance `T = int` with `std::allocator<int>`. -/
def stdEnv : Env std_allocator Int Int String where
  A_default := ()
  allocate_result := arena 8
  T_construct := fun c =>
    match c with
    | .default => .ok 0
    | .args n => .ok n
    | .copy v => .ok v

/-- The state after `indirect<int> a(std::in_place, 5);`, with `a` as object 0. -/
def demo_a : Machine Nat Int :=
  match indirect.ctor_in_place (intEnv noFail) 5 Machine.empty with
  | .ok b m => m.place (.box 0) b
  | _ => Machine.empty

/-- The state after `indirect<int, A> a(std::allocator_arg, 1, std::in_place, 5);`
and `indirect<int, A> b(std::allocator_arg, 2, std::in_place, 7);`, with `a` as
object 0 and `b` as object 1. -/
def demo_ab : Machine Nat Int :=
  match indirect.ctor_allocator_arg (intEnv noFail) 1 5 Machine.empty with
  | .ok a m =>
    match indirect.ctor_allocator_arg (intEnv noFail) 2 7 (m.place (.box 0) a) with
    | .ok b m1 => m1.place (.box 1) b
    | _ => Machine.empty
  | _ => Machine.empty

/-- The state after `indirect<int> a(std::in_place, 5);` and
`indirect<int> b(std::in_place, 5);`, with `a` as object 0 and `b` as object 1. -/
def demo_std : Machine std_allocator Int :=
  match indirect.ctor_in_place stdEnv 5 Machine.empty with
  | .ok a m =>
    match indirect.ctor_in_place stdEnv 5 (m.place (.box 0) a) with
    | .ok b m1 => m1.place (.box 1) b
    | _ => Machine.empty
  | _ => Machine.empty

/-- The state after `indirect<int, A> c(std::move(a));` in `demo_ab`, with `c` as
object 2: `a` is Valueless, `b` and `c` are Engaged. -/
def demo_moved : Machine Nat Int :=
  match indirect.ctor_move (E := String) (.box 0) demo_ab with
  | .ok c m => m.place (.box 2) c
  | _ => Machine.empty

/-- The state after `indirect<int> c(std::move(a));` in `demo_std`, with `c` as
object 2. -/
def demo_std_moved : Machine std_allocator Int :=
  match indirect.ctor_move (E := String) (.box 0) demo_std with
  | .ok c m => m.place (.box 2) c
  | _ => Machine.empty

/-! ## Basic facts -/

@[simp] theorem upd_same {α β : Type} [DecidableEq α] (f : α → β) (a : α) (v : β) :
    upd f a v a = v := by
  simp [upd]

@[simp] theorem upd_other {α β : Type} [DecidableEq α] (f : α → β) (a x : α) (v : β)
    (h : x ≠ a) : upd f a v x = f x := by
  simp [upd, h]

@[simp] theorem upd_upd {α β : Type} [DecidableEq α] (f : α → β) (a : α) (v w : β) :
    upd (upd f a v) a w = upd f a w := by
  funext x
  by_cases h : x = a <;> simp [upd, h]

theorem upd_none_of_none {α β : Type} [DecidableEq α] (f : α → Option β) (a : α)
    (h : f a = none) : upd f a none = f := by
  funext x
  by_cases hx : x = a
  · subst hx; simp [upd, h]
  · simp [upd, hx]

theorem balance_append (l l2 : List (Event A)) :
    Machine.balance (l ++ l2) = Machine.balance l + Machine.balance l2 := by
  induction l with
  | nil => simp [Machine.balance]
  | cons ev l ih =>
    cases ev with
    | allocate al r =>
      cases r with
      | none => simp [Machine.balance, ih]
      | some p => simp [Machine.balance, ih]; omega
    | construct al p ok => simp [Machine.balance, ih]
    | destroy al p => simp [Machine.balance, ih]
    | deallocate al p => simp [Machine.balance, ih]; omega

theorem arena_fresh (n : Nat) (m : Machine A T) (al : A) (p : Ptr)
    (h : arena n m al = .ok p) : p ≠ nullptr ∧ m.cells p = none := by
  unfold arena at h
  split at h
  · rename_i q hq
    have hq1 := List.find?_some hq
    have hq2 := List.mem_of_find?_eq_some hq
    injection h with h
    subst h
    rw [List.mem_range'_1] at hq2
    refine ⟨?_, ?_⟩
    · exact Nat.pos_iff_ne_zero.mp hq2.1
    · simpa using hq1
  · cases h

theorem intEnv_fresh (fails : CtorArgs Int Int → Bool) : (intEnv fails).Fresh := by
  intro m al p h
  exact arena_fresh 8 m al p h

/-! ## The copy constructor, path by path -/

theorem load_some_cell (m : Machine A T) (p : Ptr) (v : T) (h : m.load p = some v) :
    ∃ c al, m.cells p = some c ∧ c.obj = some (al, v) := by
  unfold Machine.load at h
  cases hc : m.cells p with
  | none => simp [hc] at h
  | some c =>
    simp [hc] at h
    obtain ⟨al, hal⟩ := h
    exact ⟨c, al, rfl, hal⟩

theorem ctor_copy_ok (env : Env A T Args E) (m : Machine A T) (b : Ref) (bo : indirect A)
    (v w : T) (mem : Ptr)
    (hb : m.boxes b = some bo) (hp : bo.p_ ≠ nullptr) (hv : m.load bo.p_ = some v)
    (halloc : env.allocate_result m bo.alloc_ = .ok mem) (hne : bo.p_ ≠ mem)
    (hcopy : env.T_construct (.copy v) = .ok w) :
    indirect.ctor_copy env b m = .ok ⟨mem, bo.alloc_⟩
      { m with cells := upd m.cells mem (some ⟨bo.alloc_, some (bo.alloc_, w)⟩),
               log := m.log ++ [.allocate bo.alloc_ (some mem),
                                .construct bo.alloc_ mem true] } := by
  obtain ⟨c, al0, hc, hobj⟩ := load_some_cell m _ v hv
  simp [indirect.ctor_copy, hb, hp, allocator_traits.allocate, halloc, Outcome.bind,
    indirect.op_star_const, Machine.load, hne, hc, hobj, allocator_traits.construct, hcopy,
    Outcome.try_catch]

theorem ctor_copy_alloc_throw (env : Env A T Args E) (m : Machine A T) (b : Ref)
    (bo : indirect A) (e : E)
    (hb : m.boxes b = some bo) (hp : bo.p_ ≠ nullptr)
    (halloc : env.allocate_result m bo.alloc_ = .error e) :
    indirect.ctor_copy env b m
      = .throw e { m with log := m.log ++ [.allocate bo.alloc_ none] } := by
  simp [indirect.ctor_copy, hb, hp, allocator_traits.allocate, halloc, Outcome.bind]

theorem ctor_copy_ctor_throw (env : Env A T Args E) (m : Machine A T) (b : Ref)
    (bo : indirect A) (v : T) (mem : Ptr) (e : E)
    (hb : m.boxes b = some bo) (hp : bo.p_ ≠ nullptr) (hv : m.load bo.p_ = some v)
    (halloc : env.allocate_result m bo.alloc_ = .ok mem) (hne : bo.p_ ≠ mem)
    (hcopy : env.T_construct (.copy v) = .error e) :
    indirect.ctor_copy env b m = .throw e
      { m with cells := upd m.cells mem none,
               log := m.log ++ [.allocate bo.alloc_ (some mem),
                                .construct bo.alloc_ mem false,
                                .deallocate bo.alloc_ mem] } := by
  obtain ⟨c, al0, hc, hobj⟩ := load_some_cell m _ v hv
  simp [indirect.ctor_copy, hb, hp, allocator_traits.allocate, halloc, Outcome.bind,
    indirect.op_star_const, Machine.load, hne, hc, hobj, allocator_traits.construct, hcopy,
    Outcome.try_catch, allocator_traits.deallocate]

theorem fresh_ne_live (m : Machine A T) (p mem : Ptr) (v : T)
    (hv : m.load p = some v) (hfresh : m.cells mem = none) : p ≠ mem := by
  intro h
  rw [h] at hv
  simp [Machine.load, hfresh] at hv

/-- After a failed construction the log has gained one successful `allocate`
and one `deallocate`, so the count of outstanding allocations is what it was. -/
theorem rollback_balance (m : Machine A T) (al : A) (mem : Ptr) :
    Machine.balance (m.log ++ [.allocate al (some mem), .construct al mem false,
      .deallocate al mem]) = m.outstanding := by
  simp [Machine.outstanding, balance_append, Machine.balance]

/-- The state after a successful `this = other`: the copy is in `mem`, the box
`this` points to it, and the storage `this` had (if any) was released by `tmp`. -/
theorem assign_copy_ok (env : Env A T Args E) (m : Machine A T) (a b : Nat)
    (ao bo : indirect A) (v w : T) (mem : Ptr)
    (ha : m.boxes (.box a) = some ao) (hb : m.boxes (.box b) = some bo)
    (hp : bo.p_ ≠ nullptr) (hv : m.load bo.p_ = some v)
    (halloc : env.allocate_result m bo.alloc_ = .ok mem) (hne : bo.p_ ≠ mem)
    (hcopy : env.T_construct (.copy v) = .ok w) :
    indirect.assign_copy env a b m = .ok ()
      { cells := if ao.p_ = nullptr
          then upd m.cells mem (some ⟨bo.alloc_, some (bo.alloc_, w)⟩)
          else upd (upd m.cells mem (some ⟨bo.alloc_, some (bo.alloc_, w)⟩)) ao.p_ none,
        log := m.log ++ [.allocate bo.alloc_ (some mem), .construct bo.alloc_ mem true] ++
          (if ao.p_ = nullptr then []
           else [.destroy bo.alloc_ ao.p_, .deallocate bo.alloc_ ao.p_]),
        boxes := upd (upd m.boxes (.box a) (some ⟨mem, ao.alloc_⟩)) .tmp none } := by
  by_cases hap : ao.p_ = nullptr
  · simp [indirect.assign_copy, ha, hb, hp, ctor_copy_ok env m _ bo v w mem hb hp hv halloc hne hcopy,
      Outcome.bind, indirect.swap, Machine.place, Machine.setP, indirect.dtor, indirect.reset,
      hap, Machine.drop]
    funext r
    by_cases h1 : r = .tmp
    · simp [upd, h1]
    · by_cases h2 : r = .box a <;> simp [upd, h1, h2]
  · simp [indirect.assign_copy, ha, hb, hp, ctor_copy_ok env m _ bo v w mem hb hp hv halloc hne hcopy,
      Outcome.bind, indirect.swap, Machine.place, Machine.setP, indirect.dtor, indirect.reset,
      hap, Machine.drop, allocator_traits.destroy, allocator_traits.deallocate]
    funext r
    by_cases h1 : r = .tmp
    · simp [upd, h1]
    · by_cases h2 : r = .box a <;> simp [upd, h1, h2]

/-! ## The ownership discipline -/

theorem Owned.congr {o o2 : Ref → Ptr} {al al2 : Ptr → Prop} {n n2 : Int}
    (h : Owned o al n) (ho : ∀ r, o2 r = o r) (hal : ∀ p, al2 p ↔ al p) (hn : n2 = n) :
    Owned o2 al2 n2 := by
  have e1 : o2 = o := funext ho
  have e2 : al2 = al := funext fun p => propext (hal p)
  subst e1 e2 hn
  exact h

theorem Owned.acquire {o : Ref → Ptr} {al : Ptr → Prop} {n : Int} (h : Owned o al n)
    (r : Ref) (mem : Ptr) (hr : o r = nullptr) (hm : mem ≠ nullptr) (hf : ¬ al mem) :
    Owned (upd o r mem) (fun p => p = mem ∨ al p) (n + 1) := by
  have hno : ∀ x, o x ≠ mem := by
    intro x hx
    exact hf ((h.owned mem).2 ⟨hm, x, hx⟩)
  refine ⟨?_, ?_, ?_⟩
  · intro r1 r2 h1 h2
    by_cases e1 : r1 = r
    · by_cases e2 : r2 = r
      · rw [e1, e2]
      · subst e1
        simp [upd, e2] at h2
        exact absurd h2.symm (hno r2)
    · by_cases e2 : r2 = r
      · subst e2
        simp [upd, e1] at h2
        exact absurd h2 (hno r1)
      · simp [upd, e1, e2] at h1 h2
        exact h.unique r1 r2 h1 h2
  · intro p
    constructor
    · rintro (hp | hp)
      · subst hp
        exact ⟨hm, r, by simp [upd]⟩
      · obtain ⟨hp0, x, hx⟩ := (h.owned p).1 hp
        have hxr : x ≠ r := by
          intro e
          subst e
          exact hp0 (hx ▸ hr)
        exact ⟨hp0, x, by simp [upd, hxr, hx]⟩
    · rintro ⟨hp0, x, hx⟩
      by_cases e : x = r
      · subst e
        simp [upd] at hx
        exact Or.inl hx.symm
      · simp [upd, e] at hx
        exact Or.inr ((h.owned p).2 ⟨hp0, x, hx⟩)
  · obtain ⟨s, hs, hc⟩ := h.counted
    have hrs : r ∉ s := by
      intro hmem
      exact (hs r).1 hmem hr
    refine ⟨insert r s, ?_, ?_⟩
    · intro x
      by_cases e : x = r
      · subst e
        simp [upd, hm]
      · simp [upd, e, hs x]
    · rw [Finset.card_insert_of_not_mem hrs]
      push_cast
      omega

theorem Owned.release {o : Ref → Ptr} {al : Ptr → Prop} {n : Int} (h : Owned o al n)
    (r : Ref) (hr : o r ≠ nullptr) :
    Owned (upd o r nullptr) (fun p => p ≠ o r ∧ al p) (n - 1) := by
  refine ⟨?_, ?_, ?_⟩
  · intro r1 r2 h1 h2
    have e1 : r1 ≠ r := by
      intro e
      subst e
      simp [upd] at h1
    simp [upd, e1] at h1 h2
    have e2 : r2 ≠ r := by
      intro e
      subst e
      simp [upd] at h2
      exact h1 h2
    simp [upd, e2] at h2
    exact h.unique r1 r2 h1 h2
  · intro p
    constructor
    · rintro ⟨hp1, hp2⟩
      obtain ⟨hp0, x, hx⟩ := (h.owned p).1 hp2
      have hxr : x ≠ r := by
        intro e
        subst e
        exact hp1 hx.symm
      exact ⟨hp0, x, by simp [upd, hxr, hx]⟩
    · rintro ⟨hp0, x, hx⟩
      have hxr : x ≠ r := by
        intro e
        subst e
        simp [upd] at hx
        exact hp0 hx.symm
      simp [upd, hxr] at hx
      refine ⟨?_, (h.owned p).2 ⟨hp0, x, hx⟩⟩
      intro e
      have := h.unique x r (by rw [hx]; exact hp0) (by rw [hx, e])
      exact hxr this
  · obtain ⟨s, hs, hc⟩ := h.counted
    have hrs : r ∈ s := (hs r).2 hr
    refine ⟨s.erase r, ?_, ?_⟩
    · intro x
      by_cases e : x = r
      · subst e
        simp [upd]
      · simp [upd, e, hs x]
    · have := Finset.card_erase_add_one hrs
      omega

theorem Owned.exchange {o : Ref → Ptr} {al : Ptr → Prop} {n : Int} (h : Owned o al n)
    (r1 r2 : Ref) : Owned (upd (upd o r1 (o r2)) r2 (o r1)) al n := by
  have key : ∀ x, upd (upd o r1 (o r2)) r2 (o r1) x = o (Equiv.swap r1 r2 x) := by
    intro x
    by_cases e2 : x = r2
    · subst e2
      simp [upd]
    · by_cases e1 : x = r1
      · subst e1
        simp [upd, e2]
      · simp [upd, e1, e2, Equiv.swap_apply_of_ne_of_ne e1 e2]
  refine ⟨?_, ?_, ?_⟩
  · intro x y hx hxy
    rw [key] at hx
    rw [key, key] at hxy
    exact (Equiv.swap r1 r2).injective (h.unique _ _ hx hxy)
  · intro p
    rw [h.owned p]
    constructor
    · rintro ⟨hp0, x, hx⟩
      exact ⟨hp0, Equiv.swap r1 r2 x, by rw [key]; simpa using hx⟩
    · rintro ⟨hp0, x, hx⟩
      exact ⟨hp0, Equiv.swap r1 r2 x, by rw [← hx, key]⟩
  · obtain ⟨s, hs, hc⟩ := h.counted
    refine ⟨s.map (Equiv.swap r1 r2).toEmbedding, ?_, ?_⟩
    · intro x
      rw [key, ← hs]
      simp [Finset.mem_map_equiv]
    · rw [Finset.card_map]
      exact hc

/-- The three ways the allocate / construct / rollback protocol ends. -/
theorem ctor_body_cases (env : Env A T Args E) (al : A) (args : CtorArgs T Args)
    (m : Machine A T) :
    let r : Outcome E (Machine A T) (indirect A) :=
      (allocator_traits.allocate env al m).bind fun mem m1 =>
        ((allocator_traits.construct env al mem args m1).bind fun _ m2 =>
            .ok ⟨mem, al⟩ m2).try_catch fun e m2 =>
          .throw e (allocator_traits.deallocate al mem m2)
    (∃ e, env.allocate_result m al = .error e ∧
      r = .throw e { m with log := m.log ++ [.allocate al none] }) ∨
    (∃ mem e, env.allocate_result m al = .ok mem ∧
      r = .throw e { m with cells := upd m.cells mem none,
                            log := m.log ++ [.allocate al (some mem),
                              .construct al mem false, .deallocate al mem] }) ∨
    (∃ mem v, env.allocate_result m al = .ok mem ∧
      r = .ok ⟨mem, al⟩ { m with cells := upd m.cells mem (some ⟨al, some (al, v)⟩),
                                  log := m.log ++ [.allocate al (some mem),
                                    .construct al mem true] }) := by
  intro r
  cases h1 : env.allocate_result m al with
  | error e =>
    left
    exact ⟨e, rfl, by simp [r, allocator_traits.allocate, h1, Outcome.bind]⟩
  | ok mem =>
    cases h2 : env.T_construct args with
    | error e =>
      right; left
      exact ⟨mem, e, rfl, by
        simp [r, allocator_traits.allocate, h1, Outcome.bind, allocator_traits.construct, h2,
          Outcome.try_catch, allocator_traits.deallocate]⟩
    | ok v =>
      right; right
      exact ⟨mem, v, rfl, by
        simp [r, allocator_traits.allocate, h1, Outcome.bind, allocator_traits.construct, h2,
          Outcome.try_catch]⟩

theorem owner_none (m : Machine A T) (r : Ref) (h : m.boxes r = none) :
    m.owner r = nullptr := by
  simp [Machine.owner, h]

theorem owner_some (m : Machine A T) (r : Ref) (b : indirect A) (h : m.boxes r = some b) :
    m.owner r = b.p_ := by
  simp [Machine.owner, h]

theorem outstanding_append (m : Machine A T) (l : List (Event A)) (m1 : Machine A T)
    (h : m1.log = m.log ++ l) : m1.outstanding = m.outstanding + Machine.balance l := by
  simp [Machine.outstanding, h, balance_append]

/-- The state after an allocation failure. -/
theorem sound_alloc_failed (m : Machine A T) (al : A) (hs : m.Sound) :
    Machine.Sound { m with log := m.log ++ [.allocate al none] } := by
  refine ⟨hs.1.congr (fun _ => rfl) (fun _ => Iff.rfl) ?_, hs.2⟩
  simp [Machine.outstanding, balance_append, Machine.balance]

/-- The state after a rolled-back construction. -/
theorem sound_rolled_back (m : Machine A T) (al : A) (mem : Ptr) (hs : m.Sound)
    (hf : m.cells mem = none) :
    Machine.Sound { m with cells := upd m.cells mem none,
                           log := m.log ++ [.allocate al (some mem),
                             .construct al mem false, .deallocate al mem] } := by
  refine ⟨hs.1.congr (fun _ => rfl) (fun p => ?_) ?_, hs.2⟩
  · rw [upd_none_of_none _ _ hf]
    exact Iff.rfl
  · simp [Machine.outstanding, balance_append, Machine.balance]

/-- The state after a new box `dst` was built on fresh storage. -/
theorem sound_built (m : Machine A T) (al al2 : A) (mem : Ptr) (v : T) (dst : Nat)
    (hs : m.Sound) (hd : m.boxes (.box dst) = none) (hm : mem ≠ nullptr)
    (hf : m.cells mem = none) :
    Machine.Sound (Machine.place
      { m with cells := upd m.cells mem (some ⟨al, some (al, v)⟩),
               log := m.log ++ [.allocate al (some mem), .construct al mem true] }
      (.box dst) ⟨mem, al2⟩) := by
  refine ⟨(hs.1.acquire (.box dst) mem (owner_none m _ hd) hm (by simp [Machine.allocated, hf])).congr
    (fun r => ?_) (fun p => ?_) ?_, ?_⟩
  · by_cases e : r = .box dst
    · subst e
      simp [Machine.owner, Machine.place, upd]
    · simp [Machine.owner, Machine.place, upd, e]
  · by_cases e : p = mem
    · subst e
      simp [Machine.allocated, Machine.place, upd]
    · simp [Machine.allocated, Machine.place, upd, e]
  · simp [Machine.outstanding, Machine.place, balance_append, Machine.balance]
  · simp [Machine.place, upd, hs.2]

/-- How the copy constructor ends when it completes. -/
theorem ctor_copy_cases (env : Env A T Args E) (r : Ref) (m : Machine A T) :
    (indirect.ctor_copy env r m).final = none ∨
    ∃ b, m.boxes r = some b ∧ b.p_ ≠ nullptr ∧
      ((∃ e, env.allocate_result m b.alloc_ = .error e ∧
        indirect.ctor_copy env r m
          = .throw e { m with log := m.log ++ [.allocate b.alloc_ none] }) ∨
      (∃ mem e, env.allocate_result m b.alloc_ = .ok mem ∧
        indirect.ctor_copy env r m
          = .throw e { m with cells := upd m.cells mem none,
                              log := m.log ++ [.allocate b.alloc_ (some mem),
                                .construct b.alloc_ mem false, .deallocate b.alloc_ mem] }) ∨
      (∃ mem v, env.allocate_result m b.alloc_ = .ok mem ∧
        indirect.ctor_copy env r m
          = .ok ⟨mem, b.alloc_⟩
              { m with cells := upd m.cells mem (some ⟨b.alloc_, some (b.alloc_, v)⟩),
                       log := m.log ++ [.allocate b.alloc_ (some mem),
                         .construct b.alloc_ mem true] })) := by
  cases hb : m.boxes r with
  | none => left; simp [indirect.ctor_copy, hb, Outcome.final]
  | some b =>
    by_cases hp : b.p_ = nullptr
    · left; simp [indirect.ctor_copy, hb, hp, Outcome.final]
    · cases h1 : env.allocate_result m b.alloc_ with
      | error e =>
        right
        exact ⟨b, rfl, hp, Or.inl ⟨e, h1, ctor_copy_alloc_throw env m r b e hb hp h1⟩⟩
      | ok mem =>
        cases h2 : Machine.load
            { m with cells := upd m.cells mem (some ⟨b.alloc_, none⟩),
                     log := m.log ++ [.allocate b.alloc_ (some mem)] } b.p_ with
        | none =>
          left
          simp [indirect.ctor_copy, hb, hp, allocator_traits.allocate, h1, Outcome.bind,
            indirect.op_star_const, h2, Outcome.try_catch, Outcome.final]
        | some v =>
          cases h3 : env.T_construct (.copy v) with
          | error e =>
            right
            refine ⟨b, rfl, hp, Or.inr (Or.inl ⟨mem, e, h1, ?_⟩)⟩
            simp [indirect.ctor_copy, hb, hp, allocator_traits.allocate, h1, Outcome.bind,
              indirect.op_star_const, h2, Outcome.try_catch, allocator_traits.construct, h3,
              allocator_traits.deallocate]
          | ok w =>
            right
            refine ⟨b, rfl, hp, Or.inr (Or.inr ⟨mem, w, h1, ?_⟩)⟩
            simp [indirect.ctor_copy, hb, hp, allocator_traits.allocate, h1, Outcome.bind,
              indirect.op_star_const, h2, Outcome.try_catch, allocator_traits.construct, h3]

/-- The rest of `this = other` once `tmp` is built. -/
theorem assign_copy_of_copy (env : Env A T Args E) (m : Machine A T) (a b : Nat)
    (ao bo : indirect A) (w : T) (mem : Ptr)
    (ha : m.boxes (.box a) = some ao) (hb : m.boxes (.box b) = some bo)
    (hp : bo.p_ ≠ nullptr)
    (hc : indirect.ctor_copy env (.box b) m = .ok ⟨mem, bo.alloc_⟩
      { m with cells := upd m.cells mem (some ⟨bo.alloc_, some (bo.alloc_, w)⟩),
               log := m.log ++ [.allocate bo.alloc_ (some mem),
                 .construct bo.alloc_ mem true] }) :
    indirect.assign_copy env a b m = .ok ()
      { cells := if ao.p_ = nullptr
          then upd m.cells mem (some ⟨bo.alloc_, some (bo.alloc_, w)⟩)
          else upd (upd m.cells mem (some ⟨bo.alloc_, some (bo.alloc_, w)⟩)) ao.p_ none,
        log := m.log ++ [.allocate bo.alloc_ (some mem), .construct bo.alloc_ mem true] ++
          (if ao.p_ = nullptr then []
           else [.destroy bo.alloc_ ao.p_, .deallocate bo.alloc_ ao.p_]),
        boxes := upd (upd m.boxes (.box a) (some ⟨mem, ao.alloc_⟩)) .tmp none } := by
  by_cases hap : ao.p_ = nullptr
  · simp [indirect.assign_copy, ha, hb, hp, hc,
      Outcome.bind, indirect.swap, Machine.place, Machine.setP, indirect.dtor, indirect.reset,
      hap, Machine.drop]
    funext r
    by_cases h1 : r = .tmp
    · simp [upd, h1]
    · by_cases h2 : r = .box a <;> simp [upd, h1, h2]
  · simp [indirect.assign_copy, ha, hb, hp, hc,
      Outcome.bind, indirect.swap, Machine.place, Machine.setP, indirect.dtor, indirect.reset,
      hap, Machine.drop, allocator_traits.destroy, allocator_traits.deallocate]
    funext r
    by_cases h1 : r = .tmp
    · simp [upd, h1]
    · by_cases h2 : r = .box a <;> simp [upd, h1, h2]

/-- How `this = other` ends when it completes. -/
theorem assign_copy_cases (env : Env A T Args E) (a b : Nat) (m : Machine A T) :
    (indirect.assign_copy env a b m).final = none ∨
    ∃ ao bo, m.boxes (.box a) = some ao ∧ m.boxes (.box b) = some bo ∧ bo.p_ ≠ nullptr ∧
      ((∃ e, env.allocate_result m bo.alloc_ = .error e ∧
        indirect.assign_copy env a b m
          = .throw e { m with log := m.log ++ [.allocate bo.alloc_ none] }) ∨
      (∃ mem e, env.allocate_result m bo.alloc_ = .ok mem ∧
        indirect.assign_copy env a b m
          = .throw e { m with cells := upd m.cells mem none,
                              log := m.log ++ [.allocate bo.alloc_ (some mem),
                                .construct bo.alloc_ mem false,
                                .deallocate bo.alloc_ mem] }) ∨
      (∃ mem w, env.allocate_result m bo.alloc_ = .ok mem ∧
        indirect.assign_copy env a b m = .ok ()
          { cells := if ao.p_ = nullptr
              then upd m.cells mem (some ⟨bo.alloc_, some (bo.alloc_, w)⟩)
              else upd (upd m.cells mem (some ⟨bo.alloc_, some (bo.alloc_, w)⟩)) ao.p_ none,
            log := m.log ++ [.allocate bo.alloc_ (some mem),
                .construct bo.alloc_ mem true] ++
              (if ao.p_ = nullptr then []
               else [.destroy bo.alloc_ ao.p_, .deallocate bo.alloc_ ao.p_]),
            boxes := upd (upd m.boxes (.box a) (some ⟨mem, ao.alloc_⟩)) .tmp none })) := by
  cases ha : m.boxes (.box a) with
  | none => left; simp [indirect.assign_copy, ha, Outcome.final]
  | some ao =>
    cases hb : m.boxes (.box b) with
    | none => left; simp [indirect.assign_copy, ha, hb, Outcome.final]
    | some bo =>
      by_cases hp : bo.p_ = nullptr
      · left; simp [indirect.assign_copy, ha, hb, hp, Outcome.final]
      · rcases ctor_copy_cases env (.box b) m with hn | ⟨b2, hb2, -, h⟩
        · left
          simp only [indirect.assign_copy, ha, hb, hp, if_false]
          cases hc : indirect.ctor_copy env (.box b) m with
          | ok x s => simp [hc, Outcome.final] at hn
          | throw e s => simp [hc, Outcome.final] at hn
          | abort s => simp [Outcome.bind, Outcome.final]
          | undefined => simp [Outcome.bind, Outcome.final]
        · rw [hb] at hb2
          injection hb2 with hb2
          subst hb2
          right
          refine ⟨ao, bo, rfl, rfl, hp, ?_⟩
          rcases h with ⟨e, h1, hc⟩ | ⟨mem, e, h1, hc⟩ | ⟨mem, w, h1, hc⟩
          · left
            exact ⟨e, h1, by simp [indirect.assign_copy, ha, hb, hp, hc, Outcome.bind]⟩
          · right; left
            exact ⟨mem, e, h1, by simp [indirect.assign_copy, ha, hb, hp, hc, Outcome.bind]⟩
          · right; right
            exact ⟨mem, w, h1, assign_copy_of_copy env m a b ao bo w mem ha hb hp hc⟩

theorem final_ok {S α : Type} (x : α) (s s1 : S)
    (h : (Outcome.ok x s : Outcome E S α).final = some s1) : s1 = s := by
  simp [Outcome.final] at h
  exact h.symm

theorem final_throw {S α : Type} (e : E) (s s1 : S)
    (h : (Outcome.throw e s : Outcome E S α).final = some s1) : s1 = s := by
  simp [Outcome.final] at h
  exact h.symm

/-- A plain constructor (default, in-place, allocator-extended) keeps the discipline. -/
theorem sound_ctor_body (env : Env A T Args E) (hf : env.Fresh) (al : A)
    (args : CtorArgs T Args) (dst : Nat) (m m1 : Machine A T) (hs : m.Sound)
    (hstep : (construct_at dst m
      ((allocator_traits.allocate env al m).bind fun mem m1 =>
        ((allocator_traits.construct env al mem args m1).bind fun _ m2 =>
            .ok ⟨mem, al⟩ m2).try_catch fun e m2 =>
          .throw e (allocator_traits.deallocate al mem m2))).final = some m1) :
    m1.Sound := by
  unfold construct_at at hstep
  cases hd : m.boxes (.box dst) with
  | some b => simp [hd, Outcome.final] at hstep
  | none =>
    simp only [hd] at hstep
    rcases ctor_body_cases env al args m with ⟨e, h1, hr⟩ | ⟨mem, e, h1, hr⟩ | ⟨mem, v, h1, hr⟩
    · rw [hr] at hstep
      rw [final_throw _ _ _ hstep]
      exact sound_alloc_failed m al hs
    · rw [hr] at hstep
      rw [final_throw _ _ _ hstep]
      exact sound_rolled_back m al mem hs (hf m al mem h1).2
    · rw [hr] at hstep
      rw [final_ok _ _ _ hstep]
      exact sound_built m al al mem v dst hs hd (hf m al mem h1).1 (hf m al mem h1).2

theorem sound_ctor_copy (env : Env A T Args E) (hf : env.Fresh) (dst src : Nat)
    (m m1 : Machine A T) (hs : m.Sound)
    (hstep : (construct_at dst m (indirect.ctor_copy env (.box src) m)).final = some m1) :
    m1.Sound := by
  unfold construct_at at hstep
  cases hd : m.boxes (.box dst) with
  | some b => simp [hd, Outcome.final] at hstep
  | none =>
    simp only [hd] at hstep
    rcases ctor_copy_cases env (.box src) m with hn | ⟨b, hb, hp, h⟩
    · cases hc : indirect.ctor_copy env (.box src) m with
      | ok x s => simp [hc, Outcome.final] at hn
      | throw e s => simp [hc, Outcome.final] at hn
      | abort s => simp [hc, Outcome.bind, Outcome.final] at hstep
      | undefined => simp [hc, Outcome.bind, Outcome.final] at hstep
    · rcases h with ⟨e, h1, hr⟩ | ⟨mem, e, h1, hr⟩ | ⟨mem, v, h1, hr⟩
      · rw [hr] at hstep
        rw [final_throw _ _ _ hstep]
        exact sound_alloc_failed m _ hs
      · rw [hr] at hstep
        rw [final_throw _ _ _ hstep]
        exact sound_rolled_back m _ mem hs (hf m _ mem h1).2
      · rw [hr] at hstep
        rw [final_ok _ _ _ hstep]
        exact sound_built m _ _ mem v dst hs hd (hf m _ mem h1).1 (hf m _ mem h1).2

theorem sound_ctor_move (dst src : Nat) (m m1 : Machine A T) (hs : m.Sound)
    (hstep : (construct_at (E := E) dst m (indirect.ctor_move (.box src) m)).final
      = some m1) :
    m1.Sound := by
  unfold construct_at at hstep
  cases hd : m.boxes (.box dst) with
  | some b => simp [hd, Outcome.final] at hstep
  | none =>
    simp only [hd] at hstep
    cases hb : m.boxes (.box src) with
    | none => simp [indirect.ctor_move, hb, Outcome.bind, Outcome.final] at hstep
    | some o =>
      by_cases hp : o.p_ = nullptr
      · simp [indirect.ctor_move, hb, hp, Outcome.bind, Outcome.final] at hstep
      · have hne : dst ≠ src := by
          intro e
          subst e
          rw [hd] at hb
          cases hb
        have hne1 : Ref.box dst ≠ Ref.box src := fun h => hne (by injection h)
        simp [indirect.ctor_move, hb, hp, Outcome.bind, Outcome.final] at hstep
        subst hstep
        refine ⟨(hs.1.exchange (.box dst) (.box src)).congr (fun r => ?_) (fun p => Iff.rfl) rfl,
          ?_⟩
        · by_cases e2 : r = .box src
          · subst e2
            simp [Machine.owner, Machine.place, Machine.setP, upd, hne1.symm, hb, hd]
          · by_cases e1 : r = .box dst
            · subst e1
              simp [Machine.owner, Machine.place, Machine.setP, upd, hne1, hb]
            · simp [Machine.owner, Machine.place, Machine.setP, upd, e1, e2]
        · simp [Machine.place, Machine.setP, upd, hs.2]

theorem sound_dtor (r : Nat) (m m1 : Machine A T) (hs : m.Sound)
    (hstep : (indirect.dtor (E := E) (.box r) m).final = some m1) : m1.Sound := by
  cases hb : m.boxes (.box r) with
  | none => simp [indirect.dtor, indirect.reset, hb, Outcome.bind, Outcome.final] at hstep
  | some b =>
    by_cases hp : b.p_ = nullptr
    · simp [indirect.dtor, indirect.reset, hb, hp, Outcome.bind, Outcome.final] at hstep
      subst hstep
      refine ⟨hs.1.congr (fun x => ?_) (fun p => Iff.rfl) rfl, ?_⟩
      · by_cases e : x = .box r
        · subst e
          simp [Machine.owner, Machine.drop, upd, hb, hp]
        · simp [Machine.owner, Machine.drop, upd, e]
      · simp [Machine.drop, upd, hs.2]
    · simp [indirect.dtor, indirect.reset, hb, hp, Outcome.bind, Outcome.final] at hstep
      subst hstep
      have ho : m.owner (.box r) = b.p_ := owner_some m _ b hb
      refine ⟨(hs.1.release (.box r) (by rw [ho]; exact hp)).congr (fun x => ?_) (fun p => ?_) ?_,
        ?_⟩
      · by_cases e : x = .box r
        · subst e
          simp [Machine.owner, Machine.drop, Machine.setP, upd]
        · simp [Machine.owner, Machine.drop, Machine.setP, upd, e,
            allocator_traits.deallocate, allocator_traits.destroy]
      · rw [ho]
        by_cases e : p = b.p_
        · subst e
          simp [Machine.allocated, Machine.drop, Machine.setP, upd,
            allocator_traits.deallocate, allocator_traits.destroy]
        · simp [Machine.allocated, Machine.drop, Machine.setP, upd, e,
            allocator_traits.deallocate, allocator_traits.destroy]
      · simp [Machine.outstanding, Machine.drop, Machine.setP, allocator_traits.deallocate,
          allocator_traits.destroy, balance_append, Machine.balance]
        omega
      · simp [Machine.drop, Machine.setP, upd, allocator_traits.deallocate,
          allocator_traits.destroy, hs.2]

theorem sound_swap (a b : Nat) (m m1 : Machine A T) (hs : m.Sound)
    (hstep : (indirect.swap (E := E) (.box a) (.box b) m).final = some m1) :
    m1.Sound := by
  cases ha : m.boxes (.box a) with
  | none => simp [indirect.swap, ha, Outcome.final] at hstep
  | some ao =>
    cases hb : m.boxes (.box b) with
    | none => simp [indirect.swap, ha, hb, Outcome.final] at hstep
    | some bo =>
      simp [indirect.swap, ha, hb, Outcome.final] at hstep
      subst hstep
      refine ⟨(hs.1.exchange (.box a) (.box b)).congr (fun r => ?_) (fun p => Iff.rfl) rfl, ?_⟩
      · by_cases e2 : r = .box b
        · subst e2
          by_cases e : Ref.box b = Ref.box a
          · rw [e] at hb
            rw [ha] at hb
            injection hb with hb
            subst hb
            simp [Machine.owner, Machine.setP, upd, e, ha]
          · simp [Machine.owner, Machine.setP, upd, e, ha, hb]
        · by_cases e1 : r = .box a
          · subst e1
            simp [Machine.owner, Machine.setP, upd, e2, ha, hb]
          · simp [Machine.owner, Machine.setP, upd, e1, e2]
      · simp [Machine.setP, upd, hs.2]

theorem sound_friend_swap (a b : Nat) (m m1 : Machine A T) (hs : m.Sound)
    (hstep : (indirect.friend_swap (E := E) (.box a) (.box b) m).final = some m1) :
    m1.Sound :=
  sound_swap a b m m1 hs hstep

theorem sound_store (m : Machine A T) (p : Ptr) (v : T) (hs : m.Sound) :
    (m.store p v).Sound := by
  refine ⟨hs.1.congr (fun _ => rfl) (fun q => ?_) rfl, hs.2⟩
  by_cases e : q = p
  · subst e
    cases h : m.cells q <;> simp [Machine.allocated, Machine.store, upd, h]
  · simp [Machine.allocated, Machine.store, upd, e]

/-- The state after a successful copy assignment to the box `a`. -/
theorem sound_assigned (m m1 : Machine A T) (a : Nat) (ao : indirect A) (mem : Ptr)
    (c : Cell A T) (hs : m.Sound) (ha : m.boxes (.box a) = some ao)
    (hm : mem ≠ nullptr) (hfr : m.cells mem = none)
    (hboxes : m1.boxes = upd (upd m.boxes (.box a) (some ⟨mem, ao.alloc_⟩)) .tmp none)
    (hcells : m1.cells = if ao.p_ = nullptr then upd m.cells mem (some c)
      else upd (upd m.cells mem (some c)) ao.p_ none)
    (hbal : m1.outstanding = if ao.p_ = nullptr then m.outstanding + 1 else m.outstanding) :
    m1.Sound := by
  have hnal : ¬ (m.allocated mem = true) := by simp [Machine.allocated, hfr]
  have hoa : m.owner (.box a) = ao.p_ := owner_some m _ ao ha
  have hot : m.owner .tmp = nullptr := owner_none m _ hs.2
  have hown : ∀ r, m1.owner r = upd m.owner (.box a) mem r := by
    intro r
    by_cases e1 : r = .tmp
    · subst e1
      simp [Machine.owner, hboxes, upd]
      exact hot.symm
    · by_cases e2 : r = .box a
      · subst e2
        simp [Machine.owner, hboxes, upd]
      · simp [Machine.owner, hboxes, upd, e1, e2]
  have htmp : m1.boxes .tmp = none := by simp [hboxes, upd]
  by_cases hap : ao.p_ = nullptr
  · refine ⟨(hs.1.acquire (.box a) mem (by rw [hoa]; exact hap) hm hnal).congr
      hown (fun p => ?_) ?_, htmp⟩
    · by_cases e : p = mem
      · subst e
        simp [Machine.allocated, hcells, hap, upd]
      · simp [Machine.allocated, hcells, hap, upd, e]
    · simp [hbal, hap]
  · have hrel := hs.1.release (.box a) (by rw [hoa]; exact hap)
    have hne : mem ≠ ao.p_ := by
      intro e
      have : m.allocated ao.p_ = true :=
        (hs.1.owned ao.p_).2 ⟨hap, .box a, hoa⟩
      rw [← e] at this
      exact hnal this
    have hacq := hrel.acquire (.box a) mem (by simp [upd]) hm
      (by
        rintro ⟨-, h2⟩
        exact hnal h2)
    refine ⟨hacq.congr (fun r => ?_) (fun p => ?_) ?_, htmp⟩
    · rw [hown r]
      by_cases e2 : r = .box a
      · subst e2
        simp [upd]
      · simp [upd, e2]
    · rw [hoa]
      by_cases e : p = mem
      · subst e
        simp [Machine.allocated, hcells, hap, upd, hne]
      · by_cases e3 : p = ao.p_
        · subst e3
          simp [Machine.allocated, hcells, hap, upd, e]
        · simp [Machine.allocated, hcells, hap, upd, e, e3]
    · simp [hbal, hap]

theorem sound_assign_copy (env : Env A T Args E) (hf : env.Fresh) (a b : Nat)
    (m m1 : Machine A T) (hs : m.Sound)
    (hstep : (indirect.assign_copy env a b m).final = some m1) : m1.Sound := by
  rcases assign_copy_cases env a b m with hn | ⟨ao, bo, ha, hb, hp, h⟩
  · rw [hn] at hstep
    cases hstep
  · rcases h with ⟨e, h1, hr⟩ | ⟨mem, e, h1, hr⟩ | ⟨mem, w, h1, hr⟩
    · rw [hr] at hstep
      rw [final_throw _ _ _ hstep]
      exact sound_alloc_failed m _ hs
    · rw [hr] at hstep
      rw [final_throw _ _ _ hstep]
      exact sound_rolled_back m _ mem hs (hf m _ mem h1).2
    · rw [hr] at hstep
      rw [final_ok _ _ _ hstep]
      obtain ⟨hm, hfr⟩ := hf m _ mem h1
      refine sound_assigned m _ a ao mem ⟨bo.alloc_, some (bo.alloc_, w)⟩ hs ha hm hfr rfl rfl ?_
      by_cases hap : ao.p_ = nullptr
      · simp [Machine.outstanding, hap, balance_append, Machine.balance]
      · simp [Machine.outstanding, hap, balance_append, Machine.balance]

/-- How `this = std::move(other)` ends when it completes. -/
theorem assign_move_cases (a b : Ref) (m : Machine A T) :
    (indirect.assign_move (E := E) a b m).final = none ∨
    ∃ ao bo m1, m.boxes a = some ao ∧ m.boxes b = some bo ∧ bo.p_ ≠ nullptr ∧
      indirect.assign_move (E := E) a b m = .ok () m1 ∧
      m1.boxes = (if a = b then upd m.boxes a (some ⟨nullptr, ao.alloc_⟩)
        else upd (upd m.boxes a (some ⟨bo.p_, bo.alloc_⟩)) b (some ⟨nullptr, bo.alloc_⟩)) ∧
      m1.cells = (if ao.p_ = nullptr then m.cells else upd m.cells ao.p_ none) ∧
      m1.log = m.log ++ (if ao.p_ = nullptr then []
        else [.destroy ao.alloc_ ao.p_, .deallocate ao.alloc_ ao.p_]) := by
  cases ha : m.boxes a with
  | none => left; simp [indirect.assign_move, ha, Outcome.final]
  | some ao =>
    cases hb : m.boxes b with
    | none => left; simp [indirect.assign_move, ha, hb, Outcome.final]
    | some bo =>
      by_cases hp : bo.p_ = nullptr
      · left; simp [indirect.assign_move, ha, hb, hp, Outcome.final]
      · right
        by_cases hab : a = b
        · subst hab
          rw [ha] at hb
          injection hb with hb
          subst hb
          refine ⟨ao, ao, (((((allocator_traits.deallocate ao.alloc_ ao.p_
              (allocator_traits.destroy ao.alloc_ ao.p_ m)).setP a nullptr).setAlloc a
                ao.alloc_).setP a nullptr).setP a nullptr), rfl, rfl, hp, ?_, ?_, ?_, ?_⟩
          · simp [indirect.assign_move, ha, hp, indirect.reset, Outcome.bind, Machine.setP,
              Machine.setAlloc, allocator_traits.deallocate, allocator_traits.destroy]
          · simp [Machine.setP, Machine.setAlloc, allocator_traits.deallocate,
              allocator_traits.destroy, ha]
          · simp [Machine.setP, Machine.setAlloc, allocator_traits.deallocate,
              allocator_traits.destroy, hp]
          · simp [Machine.setP, Machine.setAlloc, allocator_traits.deallocate,
              allocator_traits.destroy, hp]
        · have hba : b ≠ a := fun h => hab h.symm
          by_cases hap : ao.p_ = nullptr
          · refine ⟨ao, bo, ((m.setAlloc a bo.alloc_).setP b nullptr).setP a bo.p_,
              rfl, rfl, hp, ?_, ?_, ?_, ?_⟩
            · simp [indirect.assign_move, ha, hb, hp, indirect.reset, hap, Outcome.bind,
                Machine.setAlloc, hba]
            · simp only [Machine.setP, Machine.setAlloc, hab, if_false]
              funext r
              by_cases e2 : r = b
              · subst e2
                simp [upd, hba, hb]
              · by_cases e1 : r = a
                · subst e1
                  simp [upd, e2, ha]
                · simp [upd, e1, e2]
            · simp [Machine.setP, Machine.setAlloc, hap]
            · simp [Machine.setP, Machine.setAlloc, hap]
          · refine ⟨ao, bo, ((((allocator_traits.deallocate ao.alloc_ ao.p_
                (allocator_traits.destroy ao.alloc_ ao.p_ m)).setP a nullptr).setAlloc a
                  bo.alloc_).setP b nullptr).setP a bo.p_, rfl, rfl, hp, ?_, ?_, ?_, ?_⟩
            · simp [indirect.assign_move, ha, hb, hp, indirect.reset, hap, Outcome.bind,
                Machine.setAlloc, Machine.setP, hba, allocator_traits.deallocate,
                allocator_traits.destroy]
            · simp only [Machine.setP, Machine.setAlloc, hab, if_false,
                allocator_traits.deallocate, allocator_traits.destroy]
              funext r
              by_cases e2 : r = b
              · subst e2
                simp [upd, hba, hb]
              · by_cases e1 : r = a
                · subst e1
                  simp [upd, e2, ha]
                · simp [upd, e1, e2]
            · simp [Machine.setP, Machine.setAlloc, hap, allocator_traits.deallocate,
                allocator_traits.destroy]
            · simp [Machine.setP, Machine.setAlloc, hap, allocator_traits.deallocate,
                allocator_traits.destroy]

theorem sound_assign_move (a b : Nat) (m m1 : Machine A T) (hs : m.Sound)
    (hstep : (indirect.assign_move (E := E) (.box a) (.box b) m).final = some m1) :
    m1.Sound := by
  rcases assign_move_cases (E := E) (.box a) (.box b) m with hn |
    ⟨ao, bo, m2, ha, hb, hp, hr, hboxes, hcells, hlog⟩
  · rw [hn] at hstep
    cases hstep
  · rw [hr] at hstep
    rw [final_ok _ _ _ hstep]
    have hoa : m.owner (.box a) = ao.p_ := owner_some m _ ao ha
    have hob : m.owner (.box b) = bo.p_ := owner_some m _ bo hb
    have htmp : m2.boxes .tmp = none := by
      rw [hboxes]
      by_cases hab : Ref.box a = Ref.box b <;> simp [hab, upd, hs.2]
    by_cases hab : Ref.box a = Ref.box b
    · -- self-assignment: the value is released
      have hao : ao = bo := by
        rw [hab] at ha
        rw [ha] at hb
        injection hb
      subst hao
      simp only [hab, if_true] at hboxes
      simp only [hp, if_false] at hcells hlog
      refine ⟨(hs.1.release (.box b) (by rw [hob]; exact hp)).congr (fun r => ?_) (fun p => ?_) ?_,
        htmp⟩
      · by_cases e : r = .box b
        · subst e
          simp [Machine.owner, hboxes, upd]
        · simp [Machine.owner, hboxes, upd, e]
      · rw [hob]
        by_cases e : p = ao.p_
        · subst e
          simp [Machine.allocated, hcells, upd]
        · simp [Machine.allocated, hcells, upd, e]
      · simp [Machine.outstanding, hlog, balance_append, Machine.balance]
        omega
    · have hba : Ref.box b ≠ Ref.box a := fun h => hab h.symm
      simp only [hab, if_false] at hboxes
      have hown : ∀ r, m2.owner r
          = upd (upd (upd m.owner (.box a) nullptr) (.box a) bo.p_) (.box b) nullptr r := by
        intro r
        by_cases e2 : r = .box b
        · subst e2
          simp [Machine.owner, hboxes, upd]
        · by_cases e1 : r = .box a
          · subst e1
            simp [Machine.owner, hboxes, upd, e2]
          · simp [Machine.owner, hboxes, upd, e1, e2]
      by_cases hap : ao.p_ = nullptr
      · simp only [hap, if_true] at hcells hlog
        refine ⟨(hs.1.exchange (.box a) (.box b)).congr (fun r => ?_) (fun p => ?_) ?_, htmp⟩
        · rw [hown r, hoa, hob, hap]
          by_cases e2 : r = .box b
          · subst e2
            simp [upd]
          · by_cases e1 : r = .box a
            · subst e1
              simp [upd, e2]
            · simp [upd, e1, e2]
        · simp [Machine.allocated, hcells]
        · simp [Machine.outstanding, hlog]
      · simp only [hap, if_false] at hcells hlog
        have hrel := hs.1.release (.box a) (by rw [hoa]; exact hap)
        refine ⟨(hrel.exchange (.box a) (.box b)).congr (fun r => ?_) (fun p => ?_) ?_, htmp⟩
        · rw [hown r]
          by_cases e2 : r = .box b
          · subst e2
            simp [upd]
          · by_cases e1 : r = .box a
            · subst e1
              simp [upd, e2, hba, hob]
            · simp [upd, e1, e2]
        · rw [hoa]
          by_cases e : p = ao.p_
          · subst e
            simp [Machine.allocated, hcells, upd]
          · simp [Machine.allocated, hcells, upd, e]
        · simp [Machine.outstanding, hlog, balance_append, Machine.balance]
          omega

/-- Every public operation that completes keeps the ownership discipline. -/
theorem sound_step (env : Env A T Args E) (hf : env.Fresh) (op : Op A T Args)
    (m m1 : Machine A T) (hs : m.Sound) (hstep : Step env op m m1) : m1.Sound := by
  unfold Step at hstep
  cases op with
  | ctor_default dst => exact sound_ctor_body env hf _ .default dst m m1 hs hstep
  | ctor_in_place dst ts => exact sound_ctor_body env hf _ (.args ts) dst m m1 hs hstep
  | ctor_allocator_arg dst al ts =>
    exact sound_ctor_body env hf al (.args ts) dst m m1 hs hstep
  | ctor_copy dst src => exact sound_ctor_copy env hf dst src m m1 hs hstep
  | ctor_move dst src => exact sound_ctor_move dst src m m1 hs hstep
  | dtor r => exact sound_dtor r m m1 hs hstep
  | assign_copy dst src => exact sound_assign_copy env hf dst src m m1 hs hstep
  | assign_move dst src => exact sound_assign_move dst src m m1 hs hstep
  | star_read r =>
    simp only [run, read_through, indirect.op_star_const] at hstep
    cases hb : m.boxes (.box r) with
    | none => simp [hb, Outcome.bind, Outcome.final] at hstep
    | some b =>
      by_cases hp : b.p_ = nullptr
      · simp [hb, hp, Outcome.bind, Outcome.final] at hstep
      · cases hl : m.load b.p_ with
        | none => simp [hb, hp, hl, Outcome.bind, Outcome.final] at hstep
        | some v =>
          simp [hb, hp, hl, Outcome.bind, Outcome.final] at hstep
          subst hstep
          exact hs
  | star_write r v =>
    simp only [run, assign_through, indirect.op_star] at hstep
    cases hb : m.boxes (.box r) with
    | none => simp [hb, Outcome.bind, Outcome.final] at hstep
    | some b =>
      by_cases hp : b.p_ = nullptr
      · simp [hb, hp, Outcome.bind, Outcome.final] at hstep
      · simp [hb, hp, Outcome.bind, Outcome.final] at hstep
        subst hstep
        exact sound_store m _ v hs
  | arrow_read r =>
    simp only [run, indirect.op_arrow_const] at hstep
    cases hb : m.boxes (.box r) with
    | none => simp [hb, Outcome.bind, Outcome.final] at hstep
    | some b =>
      by_cases hp : b.p_ = nullptr
      · simp [hb, hp, Outcome.bind, Outcome.final] at hstep
      · cases hl : m.load b.p_ with
        | none => simp [hb, hp, hl, Outcome.bind, Outcome.final] at hstep
        | some v =>
          simp [hb, hp, hl, Outcome.bind, Outcome.final] at hstep
          subst hstep
          exact hs
  | arrow_write r v =>
    simp only [run, indirect.op_arrow] at hstep
    cases hb : m.boxes (.box r) with
    | none => simp [hb, Outcome.bind, Outcome.final] at hstep
    | some b =>
      by_cases hp : b.p_ = nullptr
      · simp [hb, hp, Outcome.bind, Outcome.final] at hstep
      · simp [hb, hp, Outcome.bind, Outcome.final] at hstep
        subst hstep
        exact sound_store m _ v hs
  | swap a b => exact sound_swap a b m m1 hs hstep
  | friend_swap a b => exact sound_friend_swap a b m m1 hs hstep
  | valueless_after_move r =>
    simp only [run, indirect.valueless_after_move] at hstep
    cases hb : m.boxes (.box r) with
    | none => simp [hb, Outcome.bind, Outcome.final] at hstep
    | some b =>
      simp [hb, Outcome.bind, Outcome.final] at hstep
      subst hstep
      exact hs

theorem sound_empty : (Machine.empty : Machine A T).Sound := by
  refine ⟨⟨?_, ?_, ?_⟩, rfl⟩
  · intro r1 r2 h
    exact absurd rfl h
  · intro p
    constructor
    · intro h
      simp [Machine.allocated, Machine.empty] at h
    · rintro ⟨hp, r, hr⟩
      exact absurd hr.symm hp
  · refine ⟨∅, ?_, rfl⟩
    intro r
    simp [Machine.owner, Machine.empty]

/-- Every reachable state keeps the ownership discipline. -/
theorem reachable_sound (env : Env A T Args E) (hf : env.Fresh) (m : Machine A T)
    (hr : Reachable env m) : m.Sound := by
  induction hr with
  | init => exact sound_empty
  | step op m m1 _ hstep ih => exact sound_step env hf op m m1 ih hstep

theorem reachable_demo_ab : Reachable (intEnv noFail) demo_ab :=
  Reachable.step (.ctor_allocator_arg 1 2 7) _ _
    (Reachable.step (.ctor_allocator_arg 0 1 5) _ _ Reachable.init rfl) rfl

theorem reachable_demo_moved : Reachable (intEnv noFail) demo_moved :=
  Reachable.step (.ctor_move 2 0) _ _ reachable_demo_ab rfl

/-- How `swap` ends when it completes. -/
theorem swap_cases (a b : Ref) (m : Machine A T) :
    (indirect.swap (E := E) a b m).final = none ∨
    ∃ ao bo m1, m.boxes a = some ao ∧ m.boxes b = some bo ∧
      indirect.swap (E := E) a b m = .ok () m1 ∧
      m1.boxes a = some ⟨bo.p_, ao.alloc_⟩ ∧ m1.boxes b = some ⟨ao.p_, bo.alloc_⟩ ∧
      (∀ r, r ≠ a → r ≠ b → m1.boxes r = m.boxes r) ∧
      m1.cells = m.cells ∧ m1.log = m.log := by
  cases ha : m.boxes a with
  | none => left; simp [indirect.swap, ha, Outcome.final]
  | some ao =>
    cases hb : m.boxes b with
    | none => left; simp [indirect.swap, ha, hb, Outcome.final]
    | some bo =>
      right
      refine ⟨ao, bo, (m.setP a bo.p_).setP b ao.p_, rfl, rfl, ?_, ?_, ?_, ?_, rfl, rfl⟩
      · simp [indirect.swap, ha, hb]
      · by_cases hab : a = b
        · subst hab
          rw [ha] at hb
          injection hb with hb
          subst hb
          simp [Machine.setP, ha]
        · simp [Machine.setP, ha, hab]
      · by_cases hab : a = b
        · subst hab
          rw [ha] at hb
          injection hb with hb
          subst hb
          simp [Machine.setP, ha]
        · have hba : b ≠ a := fun h => hab h.symm
          simp [Machine.setP, hb, hba]
      · intro r hra hrb
        simp [Machine.setP, hra, hrb]

theorem not_engaged_and_valueless (m m1 : Machine A T) (r : Ref)
    (he : m.engaged r = true) (hv : m1.valueless r = true)
    (h : m1.boxes r = m.boxes r) : False := by
  unfold Machine.engaged at he
  unfold Machine.valueless at hv
  rw [h] at hv
  cases hb : m.boxes r with
  | none => simp [hb] at he
  | some b =>
    simp [hb] at he hv
    exact he hv

theorem engaged_some (m : Machine A T) (r : Ref) (he : m.engaged r = true) :
    ∃ b, m.boxes r = some b ∧ b.p_ ≠ nullptr := by
  unfold Machine.engaged at he
  cases hb : m.boxes r with
  | none => simp [hb] at he
  | some b =>
    simp [hb] at he
    exact ⟨b, rfl, he⟩

theorem valueless_some (m : Machine A T) (r : Ref) (hv : m.valueless r = true) :
    ∃ b, m.boxes r = some b ∧ b.p_ = nullptr := by
  unfold Machine.valueless at hv
  cases hb : m.boxes r with
  | none => simp [hb] at hv
  | some b =>
    simp [hb] at hv
    exact ⟨b, rfl, hv⟩

/-- A reading operation or a write through `*r` leaves every box as it was. -/
theorem boxes_store (m : Machine A T) (p : Ptr) (v : T) : (m.store p v).boxes = m.boxes := rfl

/-- How a constructor call on the storage of `dst` changes the boxes. -/
theorem construct_at_boxes (dst : Nat) (m m1 : Machine A T)
    (c : Outcome E (Machine A T) (indirect A))
    (hc : ∀ s, c.final = some s → ∀ r, r ≠ Ref.box dst → s.boxes r = m.boxes r)
    (hstep : (construct_at dst m c).final = some m1) :
    m.boxes (.box dst) = none ∧ ∀ r, r ≠ Ref.box dst → m1.boxes r = m.boxes r := by
  unfold construct_at at hstep
  cases hd : m.boxes (.box dst) with
  | some b => simp [hd, Outcome.final] at hstep
  | none =>
    refine ⟨rfl, ?_⟩
    simp only [hd] at hstep
    cases c with
    | ok x s =>
      simp [Outcome.bind, Outcome.final] at hstep
      subst hstep
      intro r hr
      simp [Machine.place, upd, hr]
      exact hc s rfl r hr
    | throw e s =>
      simp [Outcome.bind, Outcome.final] at hstep
      subst hstep
      exact hc s rfl
    | abort s => simp [Outcome.bind, Outcome.final] at hstep
    | undefined => simp [Outcome.bind, Outcome.final] at hstep

theorem ctor_body_boxes (env : Env A T Args E) (al : A) (args : CtorArgs T Args)
    (m s : Machine A T)
    (h : ((allocator_traits.allocate env al m).bind fun mem m1 =>
        ((allocator_traits.construct env al mem args m1).bind fun _ m2 =>
            (.ok ⟨mem, al⟩ m2 : Outcome E (Machine A T) (indirect A))).try_catch fun e m2 =>
          .throw e (allocator_traits.deallocate al mem m2)).final = some s) :
    s.boxes = m.boxes := by
  rcases ctor_body_cases env al args m with ⟨e, -, hr⟩ | ⟨mem, e, -, hr⟩ | ⟨mem, v, -, hr⟩
  · rw [hr] at h
    rw [final_throw _ _ _ h]
  · rw [hr] at h
    rw [final_throw _ _ _ h]
  · rw [hr] at h
    rw [final_ok _ _ _ h]

theorem ctor_copy_boxes (env : Env A T Args E) (src : Ref) (m s : Machine A T)
    (h : (indirect.ctor_copy env src m).final = some s) : s.boxes = m.boxes := by
  rcases ctor_copy_cases env src m with hn | ⟨b, -, -, hc⟩
  · rw [hn] at h
    cases h
  · rcases hc with ⟨e, -, hr⟩ | ⟨mem, e, -, hr⟩ | ⟨mem, v, -, hr⟩
    · rw [hr] at h
      rw [final_throw _ _ _ h]
    · rw [hr] at h
      rw [final_throw _ _ _ h]
    · rw [hr] at h
      rw [final_ok _ _ _ h]

/-- A step that only adds the new object `dst` cannot make an Engaged box Valueless. -/
theorem new_object_keeps_engaged (m m1 : Machine A T) (dst r : Nat)
    (h : m.boxes (.box dst) = none ∧ ∀ x, x ≠ Ref.box dst → m1.boxes x = m.boxes x)
    (he : m.engaged (.box r) = true) (hv : m1.valueless (.box r) = true) : False := by
  by_cases e : Ref.box r = Ref.box dst
  · rw [e] at he
    simp [Machine.engaged, h.1] at he
  · exact not_engaged_and_valueless m m1 _ he hv (h.2 _ e)

theorem bind_not_aborted {S α β : Type} (o : Outcome E S α) (f : α → S → Outcome E S β)
    (ho : o.aborted = false) (hf : ∀ x s, (f x s).aborted = false) :
    (o.bind f).aborted = false := by
  cases o with
  | ok x s => exact hf x s
  | throw e s => rfl
  | abort s => simp [Outcome.aborted] at ho
  | undefined => rfl

theorem swap_not_aborted (a b : Ref) (m : Machine A T) :
    (indirect.swap (E := E) a b m).aborted = false := by
  unfold indirect.swap
  cases m.boxes a <;> cases m.boxes b <;> rfl

theorem reset_not_aborted (r : Ref) (m : Machine A T) :
    (indirect.reset (E := E) r m).aborted = false := by
  unfold indirect.reset
  cases h : m.boxes r with
  | none => rfl
  | some b => by_cases hp : b.p_ = nullptr <;> simp [hp, Outcome.aborted]

theorem dtor_not_aborted (r : Ref) (m : Machine A T) :
    (indirect.dtor (E := E) r m).aborted = false := by
  unfold indirect.dtor
  exact bind_not_aborted _ _ (reset_not_aborted r m) (fun _ _ => rfl)

theorem ctor_copy_not_aborted (env : Env A T Args E) (m : Machine A T) (r : Ref)
    (b : indirect A) (hb : m.boxes r = some b) (hp : b.p_ ≠ nullptr) :
    (indirect.ctor_copy env r m).aborted = false := by
  simp only [indirect.ctor_copy, hb, hp, if_false, allocator_traits.allocate]
  cases env.allocate_result m b.alloc_ with
  | error e => rfl
  | ok mem =>
    simp only [Outcome.bind, indirect.op_star_const, hb, hp, if_false]
    cases Machine.load _ b.p_ with
    | none => rfl
    | some v =>
      simp only [allocator_traits.construct]
      cases env.T_construct (.copy v) <;> rfl

theorem engaged_iff_owner (m : Machine A T) (r : Ref) :
    m.engaged r = true ↔ m.owner r ≠ nullptr := by
  unfold Machine.engaged Machine.owner
  cases m.boxes r with
  | none => simp
  | some b => simp

/-- In a state that keeps the discipline, fresh storage is owned by no box. -/
theorem fresh_not_owned (m : Machine A T) (hs : m.Sound) (mem : Ptr) (hm : mem ≠ nullptr)
    (hfr : m.cells mem = none) (r : Ref) : m.owner r ≠ mem := by
  intro h
  have : m.allocated mem = true := (hs.1.owned mem).2 ⟨hm, r, h⟩
  simp [Machine.allocated, hfr] at this

/-! ## The claims -/

/-- C1: copy-construction from an Engaged box `b` (owning a live `T` of value `v`),
when the allocator returns fresh non-null storage `mem` and `T`'s copy constructor
returns a copy, yields an Engaged box owning `mem ≠ b.p_`, obtained by one
`allocate` and one `construct` through a copy of `b`'s allocator, with `*a == *b`;
no box and no other storage changes, and after any later `*a = w` the box `b` and
`*b` are what they were while `*a == w`. -/
theorem ctor_copy_independent (env : Env A T Args E) (m : Machine A T) (a b : Ref)
    (bo : indirect A) (v : T) (mem : Ptr)
    (hb : m.boxes b = some bo) (hp : bo.p_ ≠ nullptr) (hv : m.load bo.p_ = some v)
    (halloc : env.allocate_result m bo.alloc_ = .ok mem)
    (hnn : mem ≠ nullptr) (hfresh : m.cells mem = none)
    (hcopy : env.T_construct (.copy v) = .ok v) (hab : a ≠ b) :
    ∃ m1, indirect.ctor_copy env b m = .ok ⟨mem, bo.alloc_⟩ m1 ∧
      mem ≠ bo.p_ ∧
      m1.log = m.log ++ [.allocate bo.alloc_ (some mem), .construct bo.alloc_ mem true] ∧
      read_through (E := E) a (m1.place a ⟨mem, bo.alloc_⟩)
        = .ok v (m1.place a ⟨mem, bo.alloc_⟩) ∧
      m1.boxes = m.boxes ∧ (∀ q, q ≠ mem → m1.cells q = m.cells q) ∧
      ∀ w, ∃ m3, assign_through (E := E) a w (m1.place a ⟨mem, bo.alloc_⟩) = .ok () m3 ∧
        m3.boxes b = some bo ∧ read_through (E := E) b m3 = .ok v m3 ∧
        read_through (E := E) a m3 = .ok w m3 := by
  have hne : mem ≠ bo.p_ := by
    intro h
    rw [← h] at hv
    simp [Machine.load, hfresh] at hv
  have hne2 : bo.p_ ≠ mem := fun h => hne h.symm
  have hv0 := hv
  simp only [Machine.load] at hv
  cases hc : m.cells bo.p_ with
  | none => simp [hc] at hv
  | some c =>
    simp [hc] at hv
    obtain ⟨al0, hobj⟩ := hv
    let m1 : Machine A T :=
      { m with cells := upd m.cells mem (some ⟨bo.alloc_, some (bo.alloc_, v)⟩),
               log := m.log ++ [.allocate bo.alloc_ (some mem),
                                .construct bo.alloc_ mem true] }
    refine ⟨m1, ?_, hne, rfl, ?_, rfl, ?_, ?_⟩
    · simp [m1, indirect.ctor_copy, hb, hp, allocator_traits.allocate, halloc, Outcome.bind,
        indirect.op_star_const, Machine.load, hne2, hc, hobj, allocator_traits.construct, hcopy,
        Outcome.try_catch]
    · simp [m1, read_through, indirect.op_star_const, Machine.place, hnn, Outcome.bind, Machine.load]
    · intro q hq
      simp [m1, hq]
    · intro w
      refine ⟨(m1.place a ⟨mem, bo.alloc_⟩).store mem w, ?_, ?_, ?_, ?_⟩
      · simp [m1, assign_through, indirect.op_star, Machine.place, hnn, Outcome.bind]
      · simp [m1, assign_through, indirect.op_star, Machine.place, hnn, Outcome.bind, Machine.store,
          hab.symm, hb]
      · simp [m1, assign_through, indirect.op_star, Machine.place, hnn, Outcome.bind, Machine.store,
          hab.symm, hb, read_through, indirect.op_star_const, hp, Machine.load, hne2, hc, hobj]
      · simp [m1, assign_through, indirect.op_star, Machine.place, hnn, Outcome.bind, Machine.store,
          read_through, indirect.op_star_const, Machine.load]

/-- C1 at `a = inPlace(5); b = copy(a); *b = 6`: afterwards `*a == 5` and `*b == 6`. -/
theorem ctor_copy_independent_witness :
    ∃ m1 m3, indirect.ctor_copy (intEnv noFail) (.box 0) demo_a = .ok ⟨2, 0⟩ m1 ∧
      assign_through (E := String) (.box 1) 6 (m1.place (.box 1) ⟨2, 0⟩) = .ok () m3 ∧
      read_through (E := String) (.box 0) m3 = .ok 5 m3 ∧
      read_through (E := String) (.box 1) m3 = .ok 6 m3 := by
  obtain ⟨m1, h1, -, -, -, -, -, h7⟩ :=
    ctor_copy_independent (intEnv noFail) demo_a (.box 1) (.box 0) ⟨1, 0⟩ 5 2
      rfl (by decide) rfl rfl (by decide) rfl rfl (by decide)
  obtain ⟨m3, h3, -, h5, h6⟩ := h7 6
  exact ⟨m1, m3, h1, h3, h5, h6⟩

/-- C2: copy-assignment `a = b` from an Engaged `b` is strongly exception-safe:
when `allocate` throws `e`, or returns fresh storage and `T`'s copy constructor
throws `e`, the assignment throws `e` and leaves every box (pointer and
allocator of `a` and of `b`), all storage (so `*a` and `*b`) and the number of
outstanding allocations exactly as before. -/
theorem assign_copy_strong_guarantee (env : Env A T Args E) (m : Machine A T)
    (this other : Nat) (ao bo : indirect A) (v : T) (e : E)
    (ha : m.boxes (.box this) = some ao) (hb : m.boxes (.box other) = some bo)
    (hp : bo.p_ ≠ nullptr) (hv : m.load bo.p_ = some v)
    (hfail : env.allocate_result m bo.alloc_ = .error e ∨
      ∃ mem, env.allocate_result m bo.alloc_ = .ok mem ∧ m.cells mem = none ∧
        env.T_construct (.copy v) = .error e) :
    ∃ m1, indirect.assign_copy env this other m = .throw e m1 ∧
      m1.boxes = m.boxes ∧ m1.cells = m.cells ∧ m1.outstanding = m.outstanding := by
  rcases hfail with halloc | ⟨mem, halloc, hfresh, hcopy⟩
  · refine ⟨{ m with log := m.log ++ [.allocate bo.alloc_ none] }, ?_, rfl, rfl, ?_⟩
    · simp [indirect.assign_copy, ha, hb, hp, ctor_copy_alloc_throw env m _ bo e hb hp halloc,
        Outcome.bind]
    · simp [Machine.outstanding, balance_append, Machine.balance]
  · have hne := fresh_ne_live m _ mem v hv hfresh
    refine ⟨{ m with cells := upd m.cells mem none,
                      log := m.log ++ [.allocate bo.alloc_ (some mem),
                                       .construct bo.alloc_ mem false,
                                       .deallocate bo.alloc_ mem] }, ?_, rfl, ?_, ?_⟩
    · simp [indirect.assign_copy, ha, hb, hp,
        ctor_copy_ctor_throw env m _ bo v mem e hb hp hv halloc hne hcopy, Outcome.bind]
    · exact upd_none_of_none _ _ hfresh
    · simp [Machine.outstanding, balance_append, Machine.balance]

/-- C2 at `a` holding 5, `b` holding 7 and a copy constructor that throws. -/
theorem assign_copy_strong_guarantee_witness :
    ∃ m1, indirect.assign_copy (intEnv copyFails) 0 1 demo_ab = .throw "ctor" m1 ∧
      m1.boxes = demo_ab.boxes ∧ m1.cells = demo_ab.cells ∧
      m1.outstanding = demo_ab.outstanding :=
  assign_copy_strong_guarantee (intEnv copyFails) demo_ab 0 1 ⟨1, 1⟩ ⟨2, 2⟩ 7 "ctor"
    rfl rfl (by decide) rfl (Or.inr ⟨3, rfl, rfl, rfl⟩)

/-- C3: move-construction from an Engaged box `b` returns normally with a box
holding exactly `b`'s pointer (Engaged, same value) and `b`'s allocator, makes no
allocator call and changes no storage, and leaves `b` with a null pointer, so
`b.valueless_after_move()` is `true`; no other box changes. -/
theorem ctor_move_steals (m : Machine A T) (b : Ref) (bo : indirect A)
    (hb : m.boxes b = some bo) (hp : bo.p_ ≠ nullptr) :
    ∃ m1, indirect.ctor_move (E := E) b m = .ok ⟨bo.p_, bo.alloc_⟩ m1 ∧
      m1.cells = m.cells ∧ m1.log = m.log ∧
      m1.boxes b = some ⟨nullptr, bo.alloc_⟩ ∧
      (∀ r, r ≠ b → m1.boxes r = m.boxes r) ∧
      indirect.valueless_after_move (E := E) b m1 = .ok true m1 ∧
      ∀ a, a ≠ b →
        indirect.valueless_after_move (E := E) a (m1.place a ⟨bo.p_, bo.alloc_⟩)
          = .ok false (m1.place a ⟨bo.p_, bo.alloc_⟩) ∧
        (m1.place a ⟨bo.p_, bo.alloc_⟩).load bo.p_ = m.load bo.p_ := by
  refine ⟨m.setP b nullptr, ?_, rfl, rfl, ?_, ?_, ?_, ?_⟩
  · simp [indirect.ctor_move, hb, hp]
  · simp [Machine.setP, hb]
  · intro r hr
    simp [Machine.setP, hr]
  · simp [indirect.valueless_after_move, Machine.setP, hb]
  · intro a hab
    refine ⟨?_, rfl⟩
    simp [indirect.valueless_after_move, Machine.place, hp]

/-- C3 at the box `a` holding 5. -/
theorem ctor_move_steals_witness :
    ∃ m1, indirect.ctor_move (E := String) (.box 0) demo_a = .ok ⟨1, 0⟩ m1 ∧
      m1.log = demo_a.log ∧
      indirect.valueless_after_move (E := String) (.box 0) m1 = .ok true m1 := by
  obtain ⟨m1, h1, -, h3, -, -, h6, -⟩ :=
    ctor_move_steals (E := String) demo_a (.box 0) ⟨1, 0⟩ rfl (by decide)
  exact ⟨m1, h1, h3, h6⟩

/-- C4: move-assignment `a = move(b)` between distinct boxes, `b` Engaged, returns
normally; exactly when `a` was Engaged it first destroys and deallocates
`a`'s pointer through `a`'s old allocator, and these are the only allocator
calls; afterwards `a` holds `b`'s pointer and `b`'s allocator and `b` is Valueless. -/
theorem assign_move_transfers (m : Machine A T) (a b : Ref) (ao bo : indirect A)
    (ha : m.boxes a = some ao) (hb : m.boxes b = some bo) (hp : bo.p_ ≠ nullptr)
    (hab : a ≠ b) :
    ∃ m1, indirect.assign_move (E := E) a b m = .ok () m1 ∧
      m1.boxes a = some ⟨bo.p_, bo.alloc_⟩ ∧
      m1.boxes b = some ⟨nullptr, bo.alloc_⟩ ∧
      (∀ r, r ≠ a → r ≠ b → m1.boxes r = m.boxes r) ∧
      m1.log = m.log ++
        (if ao.p_ = nullptr then []
         else [.destroy ao.alloc_ ao.p_, .deallocate ao.alloc_ ao.p_]) ∧
      m1.cells = (if ao.p_ = nullptr then m.cells else upd m.cells ao.p_ none) := by
  have hba : b ≠ a := fun h => hab h.symm
  by_cases hap : ao.p_ = nullptr
  · refine ⟨((m.setAlloc a bo.alloc_).setP b nullptr).setP a bo.p_, ?_, ?_, ?_, ?_, ?_, ?_⟩
    · simp [indirect.assign_move, ha, hb, hp, indirect.reset, hap, Outcome.bind,
        Machine.setAlloc, hba]
    · simp [Machine.setP, Machine.setAlloc, hab, ha]
    · simp [Machine.setP, Machine.setAlloc, hba, hb]
    · intro r hra hrb
      simp [Machine.setP, Machine.setAlloc, hra, hrb]
    · simp [Machine.setP, Machine.setAlloc, hap]
    · simp [Machine.setP, Machine.setAlloc, hap]
  · refine ⟨((((allocator_traits.deallocate ao.alloc_ ao.p_
        (allocator_traits.destroy ao.alloc_ ao.p_ m)).setP a nullptr).setAlloc a
          bo.alloc_).setP b nullptr).setP a bo.p_, ?_, ?_, ?_, ?_, ?_, ?_⟩
    · simp [indirect.assign_move, ha, hb, hp, indirect.reset, hap, Outcome.bind,
        Machine.setAlloc, Machine.setP, hba, allocator_traits.deallocate,
        allocator_traits.destroy]
    · simp [Machine.setP, Machine.setAlloc, hab, ha, allocator_traits.deallocate,
        allocator_traits.destroy]
    · simp [Machine.setP, Machine.setAlloc, hba, hb, allocator_traits.deallocate,
        allocator_traits.destroy]
    · intro r hra hrb
      simp [Machine.setP, Machine.setAlloc, hra, hrb, allocator_traits.deallocate,
        allocator_traits.destroy]
    · simp [Machine.setP, Machine.setAlloc, hap, allocator_traits.deallocate,
        allocator_traits.destroy]
    · simp [Machine.setP, Machine.setAlloc, hap, allocator_traits.deallocate,
        allocator_traits.destroy]

/-- C4 at `a` (allocator 1, holding 5) and `b` (allocator 2, holding 7). -/
theorem assign_move_transfers_witness :
    ∃ m1, indirect.assign_move (E := String) (.box 0) (.box 1) demo_ab = .ok () m1 ∧
      m1.boxes (.box 0) = some ⟨2, 2⟩ ∧ m1.boxes (.box 1) = some ⟨0, 2⟩ ∧
      m1.log = demo_ab.log ++ [.destroy 1 1, .deallocate 1 1] := by
  obtain ⟨m1, h1, h2, h3, -, h5, -⟩ :=
    assign_move_transfers (E := String) demo_ab (.box 0) (.box 1) ⟨1, 1⟩ ⟨2, 2⟩
      rfl rfl (by decide) (by decide)
  exact ⟨m1, h1, h2, h3, h5⟩

/-- C5: when `allocate` returns non-null `mem` and `T(ts...)` returns `v`,
`inPlace(ts...)` returns an Engaged box whose value is `v`, having made exactly
one `allocate` call and one `construct` call and nothing else. -/
theorem ctor_in_place_constructs_once (env : Env A T Args E) (m : Machine A T) (ts : Args)
    (v : T) (mem : Ptr)
    (halloc : env.allocate_result m env.A_default = .ok mem) (hnn : mem ≠ nullptr)
    (hctor : env.T_construct (.args ts) = .ok v) :
    ∃ m1, indirect.ctor_in_place env ts m = .ok ⟨mem, env.A_default⟩ m1 ∧
      m1.log = m.log ++ [.allocate env.A_default (some mem),
                         .construct env.A_default mem true] ∧
      m1.boxes = m.boxes ∧
      ∀ a, indirect.valueless_after_move (E := E) a (m1.place a ⟨mem, env.A_default⟩)
            = .ok false (m1.place a ⟨mem, env.A_default⟩) ∧
           read_through (E := E) a (m1.place a ⟨mem, env.A_default⟩)
            = .ok v (m1.place a ⟨mem, env.A_default⟩) := by
  refine ⟨{ m with cells := upd m.cells mem (some ⟨env.A_default, some (env.A_default, v)⟩),
                    log := m.log ++ [.allocate env.A_default (some mem),
                                     .construct env.A_default mem true] }, ?_, rfl, rfl, ?_⟩
  · simp [indirect.ctor_in_place, allocator_traits.allocate, halloc, Outcome.bind,
      allocator_traits.construct, hctor, Outcome.try_catch]
  · intro a
    constructor
    · simp [indirect.valueless_after_move, Machine.place, hnn]
    · simp [read_through, indirect.op_star_const, Machine.place, hnn, Outcome.bind,
        Machine.load]

/-- C5 at `indirect<int>(std::in_place, 5)` in the empty state. -/
theorem ctor_in_place_constructs_once_witness :
    ∃ m1, indirect.ctor_in_place (intEnv noFail) 5 Machine.empty = .ok ⟨1, 0⟩ m1 ∧
      m1.log = [.allocate 0 (some 1), .construct 0 1 true] ∧
      read_through (E := String) (.box 0) (m1.place (.box 0) ⟨1, 0⟩)
        = .ok 5 (m1.place (.box 0) ⟨1, 0⟩) := by
  obtain ⟨m1, h1, h2, -, h4⟩ :=
    ctor_in_place_constructs_once (intEnv noFail) Machine.empty 5 5 1 rfl (by decide) rfl
  exact ⟨m1, h1, h2, (h4 (.box 0)).2⟩

/-- C6: when `allocate` returns non-null `mem` and value-initialising a `T` gives
`v`, default construction returns an Engaged box (`valueless_after_move()` is
`false`) whose value is `v`. -/
theorem ctor_default_value_initialises (env : Env A T Args E) (m : Machine A T)
    (v : T) (mem : Ptr)
    (halloc : env.allocate_result m env.A_default = .ok mem) (hnn : mem ≠ nullptr)
    (hctor : env.T_construct .default = .ok v) :
    ∃ m1, indirect.ctor_default env m = .ok ⟨mem, env.A_default⟩ m1 ∧
      ∀ a, indirect.valueless_after_move (E := E) a (m1.place a ⟨mem, env.A_default⟩)
            = .ok false (m1.place a ⟨mem, env.A_default⟩) ∧
           read_through (E := E) a (m1.place a ⟨mem, env.A_default⟩)
            = .ok v (m1.place a ⟨mem, env.A_default⟩) := by
  refine ⟨{ m with cells := upd m.cells mem (some ⟨env.A_default, some (env.A_default, v)⟩),
                    log := m.log ++ [.allocate env.A_default (some mem),
                                     .construct env.A_default mem true] }, ?_, ?_⟩
  · simp [indirect.ctor_default, allocator_traits.allocate, halloc, Outcome.bind,
      allocator_traits.construct, hctor, Outcome.try_catch]
  · intro a
    constructor
    · simp [indirect.valueless_after_move, Machine.place, hnn]
    · simp [read_through, indirect.op_star_const, Machine.place, hnn, Outcome.bind,
        Machine.load]

/-- C6 at `indirect<int>()` in the empty state: the value is `int()`, that is 0. -/
theorem ctor_default_value_initialises_witness :
    ∃ m1, indirect.ctor_default (intEnv noFail) Machine.empty = .ok ⟨1, 0⟩ m1 ∧
      indirect.valueless_after_move (E := String) (.box 0) (m1.place (.box 0) ⟨1, 0⟩)
        = .ok false (m1.place (.box 0) ⟨1, 0⟩) ∧
      read_through (E := String) (.box 0) (m1.place (.box 0) ⟨1, 0⟩)
        = .ok 0 (m1.place (.box 0) ⟨1, 0⟩) := by
  obtain ⟨m1, h1, h2⟩ :=
    ctor_default_value_initialises (intEnv noFail) Machine.empty 0 1 rfl (by decide) rfl
  exact ⟨m1, h1, (h2 (.box 0)).1, (h2 (.box 0)).2⟩

/-- C7: in each of the four allocating constructors (default, in-place,
allocator-extended in-place, copy), when `allocate` returned `mem` and `T`'s
constructor throws `e`, the constructor throws the same `e` after exactly the calls
allocate, failed construct, deallocate of `mem`, all by the one allocator
instance; `mem` is free again, no box exists or changes, and the number of
outstanding allocations is what it was. -/
theorem ctor_failure_rolls_back (env : Env A T Args E) (m : Machine A T) (e : E)
    (mem : Ptr) :
    (env.allocate_result m env.A_default = .ok mem → env.T_construct .default = .error e →
      ∃ m1, indirect.ctor_default env m = .throw e m1 ∧
        m1.log = m.log ++ [.allocate env.A_default (some mem),
          .construct env.A_default mem false, .deallocate env.A_default mem] ∧
        m1.cells mem = none ∧ m1.boxes = m.boxes ∧ m1.outstanding = m.outstanding) ∧
    (∀ ts, env.allocate_result m env.A_default = .ok mem →
      env.T_construct (.args ts) = .error e →
      ∃ m1, indirect.ctor_in_place env ts m = .throw e m1 ∧
        m1.log = m.log ++ [.allocate env.A_default (some mem),
          .construct env.A_default mem false, .deallocate env.A_default mem] ∧
        m1.cells mem = none ∧ m1.boxes = m.boxes ∧ m1.outstanding = m.outstanding) ∧
    (∀ al ts, env.allocate_result m al = .ok mem →
      env.T_construct (.args ts) = .error e →
      ∃ m1, indirect.ctor_allocator_arg env al ts m = .throw e m1 ∧
        m1.log = m.log ++ [.allocate al (some mem),
          .construct al mem false, .deallocate al mem] ∧
        m1.cells mem = none ∧ m1.boxes = m.boxes ∧ m1.outstanding = m.outstanding) ∧
    (∀ other o v, m.boxes other = some o → o.p_ ≠ nullptr → m.load o.p_ = some v →
      o.p_ ≠ mem → env.allocate_result m o.alloc_ = .ok mem →
      env.T_construct (.copy v) = .error e →
      ∃ m1, indirect.ctor_copy env other m = .throw e m1 ∧
        m1.log = m.log ++ [.allocate o.alloc_ (some mem),
          .construct o.alloc_ mem false, .deallocate o.alloc_ mem] ∧
        m1.cells mem = none ∧ m1.boxes = m.boxes ∧ m1.outstanding = m.outstanding) := by
  refine ⟨?_, ?_, ?_, ?_⟩
  · intro halloc hctor
    refine ⟨{ m with cells := upd m.cells mem none,
                      log := m.log ++ [.allocate env.A_default (some mem),
                        .construct env.A_default mem false,
                        .deallocate env.A_default mem] }, ?_, rfl, ?_, rfl, ?_⟩
    · simp [indirect.ctor_default, allocator_traits.allocate, halloc, Outcome.bind,
        allocator_traits.construct, hctor, Outcome.try_catch, allocator_traits.deallocate]
    · simp
    · exact rollback_balance m _ mem
  · intro ts halloc hctor
    refine ⟨{ m with cells := upd m.cells mem none,
                      log := m.log ++ [.allocate env.A_default (some mem),
                        .construct env.A_default mem false,
                        .deallocate env.A_default mem] }, ?_, rfl, ?_, rfl, ?_⟩
    · simp [indirect.ctor_in_place, allocator_traits.allocate, halloc, Outcome.bind,
        allocator_traits.construct, hctor, Outcome.try_catch, allocator_traits.deallocate]
    · simp
    · exact rollback_balance m _ mem
  · intro al ts halloc hctor
    refine ⟨{ m with cells := upd m.cells mem none,
                      log := m.log ++ [.allocate al (some mem),
                        .construct al mem false, .deallocate al mem] }, ?_, rfl, ?_, rfl, ?_⟩
    · simp [indirect.ctor_allocator_arg, allocator_traits.allocate, halloc, Outcome.bind,
        allocator_traits.construct, hctor, Outcome.try_catch, allocator_traits.deallocate]
    · simp
    · exact rollback_balance m _ mem
  · intro other o v hb hp hv hne halloc hctor
    refine ⟨{ m with cells := upd m.cells mem none,
                      log := m.log ++ [.allocate o.alloc_ (some mem),
                        .construct o.alloc_ mem false, .deallocate o.alloc_ mem] },
      ?_, rfl, ?_, rfl, ?_⟩
    · exact ctor_copy_ctor_throw env m other o v mem e hb hp hv halloc hne hctor
    · simp
    · exact rollback_balance m _ mem

/-- C7 with a `T` all of whose constructors throw, next to the box `a` holding 5. -/
theorem ctor_failure_rolls_back_witness :
    (∃ m1, indirect.ctor_default (intEnv allFail) demo_a = .throw "ctor" m1 ∧
      m1.outstanding = demo_a.outstanding) ∧
    (∃ m1, indirect.ctor_in_place (intEnv allFail) 9 demo_a = .throw "ctor" m1 ∧
      m1.outstanding = demo_a.outstanding) ∧
    (∃ m1, indirect.ctor_allocator_arg (intEnv allFail) 3 9 demo_a = .throw "ctor" m1 ∧
      m1.outstanding = demo_a.outstanding) ∧
    (∃ m1, indirect.ctor_copy (intEnv allFail) (.box 0) demo_a = .throw "ctor" m1 ∧
      m1.outstanding = demo_a.outstanding) := by
  obtain ⟨h1, h2, h3, h4⟩ := ctor_failure_rolls_back (intEnv allFail) demo_a "ctor" 2
  obtain ⟨m1, e1, -, -, -, o1⟩ := h1 rfl rfl
  obtain ⟨m2, e2, -, -, -, o2⟩ := h2 9 rfl rfl
  obtain ⟨m3, e3, -, -, -, o3⟩ := h3 3 9 rfl rfl
  obtain ⟨m4, e4, -, -, -, o4⟩ := h4 (.box 0) ⟨1, 0⟩ 5 rfl (by decide) rfl (by decide) rfl rfl
  exact ⟨⟨m1, e1, o1⟩, ⟨m2, e2, o2⟩, ⟨m3, e3, o3⟩, ⟨m4, e4, o4⟩⟩

/-- C8: allocator pairing is not preserved.  With `a` built by allocator 1 and `b`
by allocator 2 (both paired), `swap(a, b)` leaves `a` holding storage that
allocator 2 allocated while `a.alloc_` is 1, and destroying `a` then releases
that storage through allocator 1; `a = b` likewise leaves `a` on storage of
allocator 2 and releases `a`'s old storage, allocated by 1, through allocator 2. -/
theorem swap_splits_allocator_pairing :
    demo_ab.paired (.box 0) = true ∧ demo_ab.paired (.box 1) = true ∧
    demo_ab.boxes (.box 0) = some ⟨1, 1⟩ ∧ demo_ab.boxes (.box 1) = some ⟨2, 2⟩ ∧
    (∃ m1, indirect.swap (E := String) (.box 0) (.box 1) demo_ab = .ok () m1 ∧
      m1.paired (.box 0) = false ∧ m1.paired (.box 1) = false ∧
      m1.boxes (.box 0) = some ⟨2, 1⟩ ∧ (m1.cells 2).map Cell.allocBy = some 2 ∧
      ∃ m2, indirect.dtor (E := String) (.box 0) m1 = .ok () m2 ∧
        m2.log = m1.log ++ [.destroy 1 2, .deallocate 1 2]) ∧
    (∃ m3, indirect.assign_copy (intEnv noFail) 0 1 demo_ab = .ok () m3 ∧
      m3.paired (.box 0) = false ∧
      m3.boxes (.box 0) = some ⟨3, 1⟩ ∧ (m3.cells 3).map Cell.allocBy = some 2 ∧
      (demo_ab.cells 1).map Cell.allocBy = some 1 ∧
      m3.log = demo_ab.log ++ [.allocate 2 (some 3), .construct 2 3 true,
        .destroy 2 1, .deallocate 2 1]) := by
  refine ⟨rfl, rfl, rfl, rfl, ⟨_, rfl, rfl, rfl, rfl, rfl, _, rfl, rfl⟩,
    ⟨_, rfl, rfl, rfl, rfl, rfl, rfl⟩⟩

/-- C9: on any two boxes `swap`, as member and as friend, returns normally with
the two pointers exchanged (so the values read through `*a` and `*b` are
exchanged) and both allocators, every other box, all storage and the call log
unchanged. -/
theorem swap_exchanges_pointers_only (m : Machine A T) (a b : Ref) (ao bo : indirect A)
    (ha : m.boxes a = some ao) (hb : m.boxes b = some bo) :
    ∃ m1, indirect.swap (E := E) a b m = .ok () m1 ∧
      indirect.friend_swap (E := E) a b m = .ok () m1 ∧
      m1.boxes a = some ⟨bo.p_, ao.alloc_⟩ ∧
      m1.boxes b = some ⟨ao.p_, bo.alloc_⟩ ∧
      (∀ r, r ≠ a → r ≠ b → m1.boxes r = m.boxes r) ∧
      m1.cells = m.cells ∧ m1.log = m.log ∧
      (bo.p_ ≠ nullptr → ∀ v, m.load bo.p_ = some v →
        read_through (E := E) a m1 = .ok v m1) ∧
      (ao.p_ ≠ nullptr → ∀ v, m.load ao.p_ = some v →
        read_through (E := E) b m1 = .ok v m1) := by
  have h1 : ((m.setP a bo.p_).setP b ao.p_).boxes a = some ⟨bo.p_, ao.alloc_⟩ := by
    by_cases hab : a = b
    · subst hab
      rw [ha] at hb
      injection hb with hb
      subst hb
      simp [Machine.setP, ha]
    · simp [Machine.setP, ha, hab]
  have h2 : ((m.setP a bo.p_).setP b ao.p_).boxes b = some ⟨ao.p_, bo.alloc_⟩ := by
    by_cases hab : a = b
    · subst hab
      rw [ha] at hb
      injection hb with hb
      subst hb
      simp [Machine.setP, ha]
    · have hba : b ≠ a := fun h => hab h.symm
      simp [Machine.setP, hb, hba]
  refine ⟨(m.setP a bo.p_).setP b ao.p_, ?_, ?_, h1, h2, ?_, rfl, rfl, ?_, ?_⟩
  · simp [indirect.swap, ha, hb]
  · simp [indirect.friend_swap, ha, hb]
  · intro r hra hrb
    simp [Machine.setP, hra, hrb]
  · intro hp v hv
    have hv1 : ((m.setP a bo.p_).setP b ao.p_).load bo.p_ = some v := hv
    simp [read_through, indirect.op_star_const, h1, hp, Outcome.bind, hv1]
  · intro hp v hv
    have hv1 : ((m.setP a bo.p_).setP b ao.p_).load ao.p_ = some v := hv
    simp [read_through, indirect.op_star_const, h2, hp, Outcome.bind, hv1]

/-- C9 at `a` (allocator 1, holding 5) and `b` (allocator 2, holding 7). -/
theorem swap_exchanges_pointers_only_witness :
    ∃ m1, indirect.swap (E := String) (.box 0) (.box 1) demo_ab = .ok () m1 ∧
      indirect.friend_swap (E := String) (.box 0) (.box 1) demo_ab = .ok () m1 ∧
      m1.boxes (.box 0) = some ⟨2, 1⟩ ∧ m1.boxes (.box 1) = some ⟨1, 2⟩ ∧
      m1.log = demo_ab.log ∧
      read_through (E := String) (.box 0) m1 = .ok 7 m1 ∧
      read_through (E := String) (.box 1) m1 = .ok 5 m1 := by
  obtain ⟨m1, h1, h2, h3, h4, -, -, h7, h8, h9⟩ :=
    swap_exchanges_pointers_only (E := String) demo_ab (.box 0) (.box 1) ⟨1, 1⟩ ⟨2, 2⟩
      rfl rfl
  exact ⟨m1, h1, h2, h3, h4, h7, h8 (by decide) 7 rfl, h9 (by decide) 5 rfl⟩

/-- C10: for an Engaged box with the default allocator whose value is `v`, the
hash of the box is `std::hash<T>` of `v`, which is the hash of `*box`; hence any
other Engaged box with the same value, whatever its storage, has the same hash. -/
theorem hash_is_hash_of_value (hashT : T → Nat) (m : Machine std_allocator T) (key : Ref)
    (b : indirect std_allocator) (v : T)
    (hk : m.boxes key = some b) (hp : b.p_ ≠ nullptr) (hv : m.load b.p_ = some v) :
    hash_indirect (E := E) hashT key m = .ok (hashT v) m ∧
    ((read_through (E := E) key m).bind fun x m1 => .ok (hashT x) m1)
      = hash_indirect (E := E) hashT key m ∧
    ∀ key2 b2, m.boxes key2 = some b2 → b2.p_ ≠ nullptr → m.load b2.p_ = some v →
      hash_indirect (E := E) hashT key2 m = hash_indirect (E := E) hashT key m := by
  have h : ∀ k (bk : indirect std_allocator), m.boxes k = some bk → bk.p_ ≠ nullptr →
      m.load bk.p_ = some v → hash_indirect (E := E) hashT k m = .ok (hashT v) m := by
    intro k bk h1 h2 h3
    simp [hash_indirect, indirect.op_star_const, h1, h2, Outcome.bind, h3]
  refine ⟨h key b hk hp hv, ?_, ?_⟩
  · simp [hash_indirect, read_through, indirect.op_star_const, hk, hp, Outcome.bind, hv]
  · intro key2 b2 h1 h2 h3
    rw [h key2 b2 h1 h2 h3, h key b hk hp hv]

/-- C10 at two boxes that both hold 5, at the addresses 1 and 2. -/
theorem hash_is_hash_of_value_witness :
    hash_indirect (E := String) Int.toNat (.box 0) demo_std = .ok 5 demo_std ∧
    hash_indirect (E := String) Int.toNat (.box 1) demo_std
      = hash_indirect (E := String) Int.toNat (.box 0) demo_std := by
  obtain ⟨h1, -, h3⟩ :=
    hash_is_hash_of_value (E := String) Int.toNat demo_std (.box 0) ⟨1, ()⟩ 5
      rfl (by decide) rfl
  exact ⟨h1, h3 (.box 1) ⟨2, ()⟩ rfl (by decide) rfl⟩

/-- C11: when the box read from is Valueless, each of `operator*` (const and not),
`operator->` (const and not), copy construction, move construction, copy
assignment and move assignment from it, and hashing it, ends in a failed
`assert` with the state exactly as it was (nothing allocated, destroyed or
changed); when that box is Engaged, none of them ends in a failed `assert`. -/
theorem assert_guards_valueless_source (env : Env A T Args E) (m : Machine A T)
    (dst r : Nat) (d b : indirect A)
    (hd : m.boxes (.box dst) = some d) (hb : m.boxes (.box r) = some b)
    (hashT : T → Nat) (ms : Machine std_allocator T) (key : Nat)
    (kb : indirect std_allocator) (hk : ms.boxes (.box key) = some kb) :
    (b.p_ = nullptr →
      indirect.op_star_const (E := E) (.box r) m = .abort m ∧
      indirect.op_star (E := E) (.box r) m = .abort m ∧
      indirect.op_arrow_const (E := E) (.box r) m = .abort m ∧
      indirect.op_arrow (E := E) (.box r) m = .abort m ∧
      indirect.ctor_copy env (.box r) m = .abort m ∧
      indirect.ctor_move (E := E) (.box r) m = .abort m ∧
      indirect.assign_copy env dst r m = .abort m ∧
      indirect.assign_move (E := E) (.box dst) (.box r) m = .abort m) ∧
    (b.p_ ≠ nullptr →
      (indirect.op_star_const (E := E) (.box r) m).aborted = false ∧
      (indirect.op_star (E := E) (.box r) m).aborted = false ∧
      (indirect.op_arrow_const (E := E) (.box r) m).aborted = false ∧
      (indirect.op_arrow (E := E) (.box r) m).aborted = false ∧
      (indirect.ctor_copy env (.box r) m).aborted = false ∧
      (indirect.ctor_move (E := E) (.box r) m).aborted = false ∧
      (indirect.assign_copy env dst r m).aborted = false ∧
      (indirect.assign_move (E := E) (.box dst) (.box r) m).aborted = false) ∧
    (kb.p_ = nullptr → hash_indirect (E := E) hashT (.box key) ms = .abort ms) ∧
    (kb.p_ ≠ nullptr → (hash_indirect (E := E) hashT (.box key) ms).aborted = false) := by
  refine ⟨fun hp => ?_, fun hp => ?_, fun hp => ?_, fun hp => ?_⟩
  · refine ⟨?_, ?_, ?_, ?_, ?_, ?_, ?_, ?_⟩
    · simp [indirect.op_star_const, hb, hp]
    · simp [indirect.op_star, hb, hp]
    · simp [indirect.op_arrow_const, hb, hp]
    · simp [indirect.op_arrow, hb, hp]
    · simp [indirect.ctor_copy, hb, hp]
    · simp [indirect.ctor_move, hb, hp]
    · simp [indirect.assign_copy, hd, hb, hp]
    · simp [indirect.assign_move, hd, hb, hp]
  · refine ⟨?_, ?_, ?_, ?_, ?_, ?_, ?_, ?_⟩
    · simp [indirect.op_star_const, hb, hp, Outcome.aborted]
    · simp [indirect.op_star, hb, hp, Outcome.aborted]
    · simp [indirect.op_arrow_const, hb, hp, Outcome.aborted]
    · simp [indirect.op_arrow, hb, hp, Outcome.aborted]
    · exact ctor_copy_not_aborted env m _ b hb hp
    · simp [indirect.ctor_move, hb, hp, Outcome.aborted]
    · simp only [indirect.assign_copy, hd, hb, hp, if_false]
      refine bind_not_aborted _ _ (ctor_copy_not_aborted env m _ b hb hp) (fun t m1 => ?_)
      exact bind_not_aborted _ _ (swap_not_aborted _ _ _) (fun _ m2 => dtor_not_aborted _ m2)
    · simp only [indirect.assign_move, hd, hb, hp, if_false]
      refine bind_not_aborted _ _ (reset_not_aborted _ m) (fun _ m1 => ?_)
      cases h1 : m1.boxes (.box r) with
      | none => rfl
      | some o1 =>
        simp only []
        cases h2 : (m1.setAlloc (.box dst) o1.alloc_).boxes (.box r) with
        | none => rfl
        | some o2 => rfl
  · simp [hash_indirect, indirect.op_star_const, hk, hp, Outcome.bind]
  · simp only [hash_indirect, indirect.op_star_const, hk, hp, if_false, Outcome.bind]
    cases Machine.load ms kb.p_ <;> rfl

/-- C11 at the moved-from box `a` (Valueless) and the box `b` (Engaged). -/
theorem assert_guards_valueless_source_witness :
    indirect.op_star_const (E := String) (.box 0) demo_moved = .abort demo_moved ∧
    indirect.ctor_copy (intEnv noFail) (.box 0) demo_moved = .abort demo_moved ∧
    indirect.assign_move (E := String) (.box 1) (.box 0) demo_moved = .abort demo_moved ∧
    (indirect.assign_copy (intEnv noFail) 0 1 demo_moved).aborted = false ∧
    hash_indirect (E := String) Int.toNat (.box 0) demo_std_moved
      = .abort demo_std_moved ∧
    (hash_indirect (E := String) Int.toNat (.box 1) demo_std_moved).aborted = false := by
  have h0 := assert_guards_valueless_source (intEnv noFail) demo_moved 1 0 ⟨2, 2⟩ ⟨0, 1⟩
    rfl rfl Int.toNat demo_std_moved 0 ⟨0, ()⟩ rfl
  have h1 := assert_guards_valueless_source (intEnv noFail) demo_moved 0 1 ⟨0, 1⟩ ⟨2, 2⟩
    rfl rfl Int.toNat demo_std_moved 1 ⟨2, ()⟩ rfl
  obtain ⟨a1, -, -, -, a5, -, -, a8⟩ := h0.1 rfl
  obtain ⟨-, -, -, -, -, -, b7, -⟩ := h1.2.1 (by decide)
  exact ⟨a1, a5, a8, b7, h0.2.2.1 rfl, h1.2.2.2 (by decide)⟩

/-- C12, as stated, fails: in a reachable state where `a` is Valueless and `b`
is Engaged, `swap(b, a)` completes and leaves `b` Valueless, although `b` is not
the source of a move construction or move assignment. -/
theorem swap_with_valueless_counterexample :
    ¬ ∀ (op : Op Nat Int Int) (m m1 : Machine Nat Int) (r : Nat),
      Reachable (intEnv noFail) m → Step (intEnv noFail) op m m1 →
      m.engaged (.box r) = true → m1.valueless (.box r) = true →
      (∃ dst, op = .ctor_move dst r) ∨ (∃ dst, op = .assign_move dst r) := by
  intro h
  have h1 := h (.swap 1 0) demo_moved ((demo_moved.setP (.box 1) 0).setP (.box 0) 2) 1
    reachable_demo_moved rfl rfl rfl
  rcases h1 with ⟨d, hd⟩ | ⟨d, hd⟩ <;> cases hd

/-- C12, amended: when a public operation completes and a box that was Engaged
before it is Valueless after it, the box was the source of a move construction
or of a move assignment, or it was swapped (member or friend `swap`) with a box
that was Valueless; in particular `swap` of two Engaged boxes, and every other
operation, leaves an Engaged box Engaged. -/
theorem valueless_only_by_move_or_swap (env : Env A T Args E) (hf : env.Fresh)
    (op : Op A T Args) (m m1 : Machine A T) (r : Nat)
    (hstep : Step env op m m1) (he : m.engaged (.box r) = true)
    (hv : m1.valueless (.box r) = true) :
    (∃ dst, op = .ctor_move dst r) ∨ (∃ dst, op = .assign_move dst r) ∨
    (∃ x, (op = .swap r x ∨ op = .swap x r ∨ op = .friend_swap r x ∨
        op = .friend_swap x r) ∧ m.valueless (.box x) = true) := by
  unfold Step at hstep
  have same : m1.boxes (.box r) = m.boxes (.box r) → False :=
    not_engaged_and_valueless m m1 _ he hv
  have swap_case : ∀ a b : Nat,
      (indirect.swap (E := E) (.box a) (.box b) m).final = some m1 →
      (r = a ∧ m.valueless (.box b) = true) ∨ (r = b ∧ m.valueless (.box a) = true) := by
    intro a b hs
    rcases swap_cases (E := E) (.box a) (.box b) m with hn |
      ⟨ao, bo, m2, ha, hb, hr, h1, h2, h3, -, -⟩
    · rw [hn] at hs
      cases hs
    · rw [hr] at hs
      have hm := final_ok _ _ _ hs
      subst hm
      obtain ⟨b1, hb1, hp1⟩ := valueless_some _ _ hv
      by_cases e1 : r = a
      · subst e1
        left
        rw [h1] at hb1
        injection hb1 with hb1
        subst hb1
        exact ⟨rfl, by simpa [Machine.valueless, hb] using hp1⟩
      · by_cases e2 : r = b
        · subst e2
          right
          rw [h2] at hb1
          injection hb1 with hb1
          subst hb1
          exact ⟨rfl, by simpa [Machine.valueless, ha] using hp1⟩
        · exact absurd (h3 (.box r) (fun h => e1 (by injection h))
            (fun h => e2 (by injection h))) (fun h => same h)
  cases op with
  | ctor_default dst =>
    exact (new_object_keeps_engaged m m1 dst r
      (construct_at_boxes dst m m1 _ (fun s hs x _ => by
        rw [ctor_body_boxes env _ .default m s hs]) hstep) he hv).elim
  | ctor_in_place dst ts =>
    exact (new_object_keeps_engaged m m1 dst r
      (construct_at_boxes dst m m1 _ (fun s hs x _ => by
        rw [ctor_body_boxes env _ (.args ts) m s hs]) hstep) he hv).elim
  | ctor_allocator_arg dst al ts =>
    exact (new_object_keeps_engaged m m1 dst r
      (construct_at_boxes dst m m1 _ (fun s hs x _ => by
        rw [ctor_body_boxes env al (.args ts) m s hs]) hstep) he hv).elim
  | ctor_copy dst src =>
    exact (new_object_keeps_engaged m m1 dst r
      (construct_at_boxes dst m m1 _ (fun s hs x _ => by
        rw [ctor_copy_boxes env _ m s hs]) hstep) he hv).elim
  | ctor_move dst src =>
    by_cases e : r = src
    · subst e
      exact Or.inl ⟨dst, rfl⟩
    · exfalso
      simp only [run, construct_at] at hstep
      cases hd : m.boxes (.box dst) with
      | some b => simp [hd, Outcome.final] at hstep
      | none =>
        simp only [hd] at hstep
        cases hb : m.boxes (.box src) with
        | none => simp [indirect.ctor_move, hb, Outcome.bind, Outcome.final] at hstep
        | some o =>
          by_cases hp : o.p_ = nullptr
          · simp [indirect.ctor_move, hb, hp, Outcome.bind, Outcome.final] at hstep
          · simp [indirect.ctor_move, hb, hp, Outcome.bind, Outcome.final] at hstep
            subst hstep
            by_cases e2 : r = dst
            · subst e2
              simp [Machine.engaged, hd] at he
            · apply same
              simp [Machine.place, Machine.setP, upd, e, e2]
  | dtor x =>
    exfalso
    simp only [run] at hstep
    cases hb : m.boxes (.box x) with
    | none => simp [indirect.dtor, indirect.reset, hb, Outcome.bind, Outcome.final] at hstep
    | some b =>
      by_cases e : r = x
      · subst e
        by_cases hp : b.p_ = nullptr
        · simp [indirect.dtor, indirect.reset, hb, hp, Outcome.bind, Outcome.final] at hstep
          subst hstep
          simp [Machine.valueless, Machine.drop, upd] at hv
        · simp [indirect.dtor, indirect.reset, hb, hp, Outcome.bind, Outcome.final] at hstep
          subst hstep
          simp [Machine.valueless, Machine.drop, upd] at hv
      · apply same
        by_cases hp : b.p_ = nullptr
        · simp [indirect.dtor, indirect.reset, hb, hp, Outcome.bind, Outcome.final] at hstep
          subst hstep
          simp [Machine.drop, upd, e]
        · simp [indirect.dtor, indirect.reset, hb, hp, Outcome.bind, Outcome.final] at hstep
          subst hstep
          simp [Machine.drop, Machine.setP, upd, e, allocator_traits.deallocate,
            allocator_traits.destroy]
  | assign_copy dst src =>
    exfalso
    simp only [run] at hstep
    rcases assign_copy_cases env dst src m with hn | ⟨ao, bo, ha, hb, hp, h⟩
    · rw [hn] at hstep
      cases hstep
    · rcases h with ⟨e, h1, hr⟩ | ⟨mem, e, h1, hr⟩ | ⟨mem, w, h1, hr⟩
      · rw [hr] at hstep
        rw [final_throw _ _ _ hstep] at same
        exact same rfl
      · rw [hr] at hstep
        rw [final_throw _ _ _ hstep] at same
        exact same rfl
      · rw [hr] at hstep
        have hm := final_ok _ _ _ hstep
        subst hm
        by_cases e : r = dst
        · subst e
          simp [Machine.valueless, upd] at hv
          exact (hf m _ mem h1).1 hv
        · apply same
          simp [upd, e]
  | assign_move dst src =>
    by_cases e : r = src
    · subst e
      exact Or.inr (Or.inl ⟨dst, rfl⟩)
    · exfalso
      simp only [run] at hstep
      rcases assign_move_cases (E := E) (.box dst) (.box src) m with hn |
        ⟨ao, bo, m2, ha, hb, hp, hr, hboxes, -, -⟩
      · rw [hn] at hstep
        cases hstep
      · rw [hr] at hstep
        have hm := final_ok _ _ _ hstep
        subst hm
        have e1 : Ref.box r ≠ Ref.box src := fun h => e (by injection h)
        by_cases hab : Ref.box dst = Ref.box src
        · simp only [hab, if_true] at hboxes
          apply same
          simp [hboxes, upd, e1]
        · simp only [hab, if_false] at hboxes
          by_cases e2 : r = dst
          · subst e2
            simp [Machine.valueless, hboxes, upd, e1] at hv
            exact hp hv
          · apply same
            simp [hboxes, upd, e1, e2]
  | star_read x =>
    exfalso
    simp only [run, read_through, indirect.op_star_const] at hstep
    cases hb : m.boxes (.box x) with
    | none => simp [hb, Outcome.bind, Outcome.final] at hstep
    | some b =>
      by_cases hp : b.p_ = nullptr
      · simp [hb, hp, Outcome.bind, Outcome.final] at hstep
      · cases hl : m.load b.p_ with
        | none => simp [hb, hp, hl, Outcome.bind, Outcome.final] at hstep
        | some v =>
          simp [hb, hp, hl, Outcome.bind, Outcome.final] at hstep
          subst hstep
          exact same rfl
  | star_write x v =>
    exfalso
    simp only [run, assign_through, indirect.op_star] at hstep
    cases hb : m.boxes (.box x) with
    | none => simp [hb, Outcome.bind, Outcome.final] at hstep
    | some b =>
      by_cases hp : b.p_ = nullptr
      · simp [hb, hp, Outcome.bind, Outcome.final] at hstep
      · simp [hb, hp, Outcome.bind, Outcome.final] at hstep
        subst hstep
        exact same rfl
  | arrow_read x =>
    exfalso
    simp only [run, indirect.op_arrow_const] at hstep
    cases hb : m.boxes (.box x) with
    | none => simp [hb, Outcome.bind, Outcome.final] at hstep
    | some b =>
      by_cases hp : b.p_ = nullptr
      · simp [hb, hp, Outcome.bind, Outcome.final] at hstep
      · cases hl : m.load b.p_ with
        | none => simp [hb, hp, hl, Outcome.bind, Outcome.final] at hstep
        | some v =>
          simp [hb, hp, hl, Outcome.bind, Outcome.final] at hstep
          subst hstep
          exact same rfl
  | arrow_write x v =>
    exfalso
    simp only [run, indirect.op_arrow] at hstep
    cases hb : m.boxes (.box x) with
    | none => simp [hb, Outcome.bind, Outcome.final] at hstep
    | some b =>
      by_cases hp : b.p_ = nullptr
      · simp [hb, hp, Outcome.bind, Outcome.final] at hstep
      · simp [hb, hp, Outcome.bind, Outcome.final] at hstep
        subst hstep
        exact same rfl
  | swap a b =>
    right; right
    rcases swap_case a b hstep with ⟨e, hx⟩ | ⟨e, hx⟩
    · subst e
      exact ⟨b, Or.inl rfl, hx⟩
    · subst e
      exact ⟨a, Or.inr (Or.inl rfl), hx⟩
  | friend_swap a b =>
    right; right
    rcases swap_case a b hstep with ⟨e, hx⟩ | ⟨e, hx⟩
    · subst e
      exact ⟨b, Or.inr (Or.inr (Or.inl rfl)), hx⟩
    · subst e
      exact ⟨a, Or.inr (Or.inr (Or.inr rfl)), hx⟩
  | valueless_after_move x =>
    exfalso
    simp only [run, indirect.valueless_after_move] at hstep
    cases hb : m.boxes (.box x) with
    | none => simp [hb, Outcome.bind, Outcome.final] at hstep
    | some b =>
      simp [hb, Outcome.bind, Outcome.final] at hstep
      subst hstep
      exact same rfl

/-- C12 (amended) at `swap(b, a)` with `a` Valueless and `b` Engaged: the third
alternative holds. -/
theorem valueless_only_by_move_or_swap_witness :
    (∃ dst, (Op.swap 1 0 : Op Nat Int Int) = .ctor_move dst 1) ∨
    (∃ dst, (Op.swap 1 0 : Op Nat Int Int) = .assign_move dst 1) ∨
    (∃ x, ((Op.swap 1 0 : Op Nat Int Int) = .swap 1 x ∨
        (Op.swap 1 0 : Op Nat Int Int) = .swap x 1 ∨
        (Op.swap 1 0 : Op Nat Int Int) = .friend_swap 1 x ∨
        (Op.swap 1 0 : Op Nat Int Int) = .friend_swap x 1) ∧
      demo_moved.valueless (.box x) = true) :=
  valueless_only_by_move_or_swap (intEnv noFail) (intEnv_fresh noFail) (.swap 1 0)
    demo_moved ((demo_moved.setP (.box 1) 0).setP (.box 0) 2) 1 rfl rfl rfl

/-- C13: in every state reachable by public operations, under the allocator
contract, two boxes that own the same non-null pointer are the same box; and a
copy construction or copy assignment that succeeds leaves the destination on a
pointer `mem` returned by an `allocate` call of that operation, non-null,
different from the source's pointer and owned by no box before the call. -/
theorem unique_ownership (env : Env A T Args E) (hf : env.Fresh) (m : Machine A T)
    (hr : Reachable env m) :
    (∀ r1 r2 b1 b2, m.boxes r1 = some b1 → m.boxes r2 = some b2 →
      b1.p_ ≠ nullptr → b1.p_ = b2.p_ → r1 = r2) ∧
    (∀ dst src m1, run env (.ctor_copy dst src) m = .ok () m1 →
      ∃ bo mem, m.boxes (.box src) = some bo ∧
        m1.boxes (.box dst) = some ⟨mem, bo.alloc_⟩ ∧
        mem ≠ nullptr ∧ mem ≠ bo.p_ ∧ (∀ x, m.owner x ≠ mem) ∧
        m1.log = m.log ++ [.allocate bo.alloc_ (some mem),
          .construct bo.alloc_ mem true]) ∧
    (∀ dst src m1, run env (.assign_copy dst src) m = .ok () m1 →
      ∃ ao bo mem, m.boxes (.box dst) = some ao ∧ m.boxes (.box src) = some bo ∧
        m1.boxes (.box dst) = some ⟨mem, ao.alloc_⟩ ∧
        mem ≠ nullptr ∧ mem ≠ bo.p_ ∧ (∀ x, m.owner x ≠ mem) ∧
        m1.log = m.log ++ [.allocate bo.alloc_ (some mem),
            .construct bo.alloc_ mem true] ++
          (if ao.p_ = nullptr then []
           else [.destroy bo.alloc_ ao.p_, .deallocate bo.alloc_ ao.p_])) := by
  have hs := reachable_sound env hf m hr
  refine ⟨?_, ?_, ?_⟩
  · intro r1 r2 b1 b2 h1 h2 hp he
    apply hs.1.unique r1 r2
    · rw [owner_some m r1 b1 h1]
      exact hp
    · rw [owner_some m r1 b1 h1, owner_some m r2 b2 h2]
      exact he
  · intro dst src m1 hrun
    simp only [run, construct_at] at hrun
    cases hd : m.boxes (.box dst) with
    | some b => simp [hd] at hrun
    | none =>
      simp only [hd] at hrun
      rcases ctor_copy_cases env (.box src) m with hn | ⟨bo, hb, hp, h⟩
      · cases hc : indirect.ctor_copy env (.box src) m with
        | ok x s => simp [hc, Outcome.final] at hn
        | throw e s => simp [hc, Outcome.final] at hn
        | abort s => simp [hc, Outcome.bind] at hrun
        | undefined => simp [hc, Outcome.bind] at hrun
      · rcases h with ⟨e, h1, hc⟩ | ⟨mem, e, h1, hc⟩ | ⟨mem, v, h1, hc⟩
        · simp [hc, Outcome.bind] at hrun
        · simp [hc, Outcome.bind] at hrun
        · simp [hc, Outcome.bind] at hrun
          subst hrun
          obtain ⟨hm, hfr⟩ := hf m _ mem h1
          have hno := fresh_not_owned m hs mem hm hfr
          refine ⟨bo, mem, hb, by simp [Machine.place, upd], hm, ?_, hno, rfl⟩
          intro e
          exact hno (.box src) (by rw [owner_some m _ bo hb, e])
  · intro dst src m1 hrun
    simp only [run] at hrun
    rcases assign_copy_cases env dst src m with hn | ⟨ao, bo, ha, hb, hp, h⟩
    · rw [hrun] at hn
      simp [Outcome.final] at hn
    · rcases h with ⟨e, h1, hc⟩ | ⟨mem, e, h1, hc⟩ | ⟨mem, w, h1, hc⟩
      · rw [hc] at hrun
        cases hrun
      · rw [hc] at hrun
        cases hrun
      · rw [hc] at hrun
        injection hrun with _ hm1
        subst hm1
        obtain ⟨hm, hfr⟩ := hf m _ mem h1
        have hno := fresh_not_owned m hs mem hm hfr
        refine ⟨ao, bo, mem, ha, hb, by simp [upd], hm, ?_, hno, rfl⟩
        intro e
        exact hno (.box src) (by rw [owner_some m _ bo hb, e])

/-- C13 at the reachable state with `a` and `b` built by allocators 1 and 2. -/
theorem unique_ownership_witness :
    (∀ r1 r2 b1 b2, demo_ab.boxes r1 = some b1 → demo_ab.boxes r2 = some b2 →
      b1.p_ ≠ nullptr → b1.p_ = b2.p_ → r1 = r2) ∧
    (∃ bo mem, demo_ab.boxes (.box 1) = some bo ∧ mem ≠ bo.p_ ∧
      ∀ x, demo_ab.owner x ≠ mem) := by
  obtain ⟨h1, h2, -⟩ :=
    unique_ownership (intEnv noFail) (intEnv_fresh noFail) demo_ab reachable_demo_ab
  obtain ⟨bo, mem, hb, -, -, hne, hno, -⟩ := h2 2 1 _ rfl
  exact ⟨h1, bo, mem, hb, hne, hno⟩

/-- C14: the allocator-extended in-place constructor makes its `allocate` call,
its `construct` call and, when `T`'s constructor throws, its `deallocate` call
through the allocator `al` it was given, which is the allocator the box keeps; on
success the box is Engaged with value `T(ts...)` on storage allocated by `al`. -/
theorem ctor_allocator_arg_uses_given_allocator (env : Env A T Args E) (m : Machine A T)
    (al : A) (ts : Args) (mem : Ptr)
    (halloc : env.allocate_result m al = .ok mem) (hnn : mem ≠ nullptr) :
    (∀ v, env.T_construct (.args ts) = .ok v →
      ∃ m1, indirect.ctor_allocator_arg env al ts m = .ok ⟨mem, al⟩ m1 ∧
        m1.log = m.log ++ [.allocate al (some mem), .construct al mem true] ∧
        (m1.cells mem).map Cell.allocBy = some al ∧
        ∀ a, indirect.valueless_after_move (E := E) a (m1.place a ⟨mem, al⟩)
              = .ok false (m1.place a ⟨mem, al⟩) ∧
             read_through (E := E) a (m1.place a ⟨mem, al⟩)
              = .ok v (m1.place a ⟨mem, al⟩)) ∧
    (∀ e, env.T_construct (.args ts) = .error e →
      ∃ m1, indirect.ctor_allocator_arg env al ts m = .throw e m1 ∧
        m1.log = m.log ++ [.allocate al (some mem), .construct al mem false,
          .deallocate al mem]) := by
  constructor
  · intro v hctor
    refine ⟨{ m with cells := upd m.cells mem (some ⟨al, some (al, v)⟩),
                      log := m.log ++ [.allocate al (some mem), .construct al mem true] },
      ?_, rfl, ?_, ?_⟩
    · simp [indirect.ctor_allocator_arg, allocator_traits.allocate, halloc, Outcome.bind,
        allocator_traits.construct, hctor, Outcome.try_catch]
    · simp
    · intro a
      constructor
      · simp [indirect.valueless_after_move, Machine.place, hnn]
      · simp [read_through, indirect.op_star_const, Machine.place, hnn, Outcome.bind,
          Machine.load]
  · intro e hctor
    refine ⟨{ m with cells := upd m.cells mem none,
                      log := m.log ++ [.allocate al (some mem), .construct al mem false,
                        .deallocate al mem] }, ?_, rfl⟩
    simp [indirect.ctor_allocator_arg, allocator_traits.allocate, halloc, Outcome.bind,
      allocator_traits.construct, hctor, Outcome.try_catch, allocator_traits.deallocate]

/-- C14 at `indirect<int, A>(std::allocator_arg, A{3}, std::in_place, 5)`. -/
theorem ctor_allocator_arg_uses_given_allocator_witness :
    ∃ m1, indirect.ctor_allocator_arg (intEnv noFail) 3 5 Machine.empty = .ok ⟨1, 3⟩ m1 ∧
      m1.log = [.allocate 3 (some 1), .construct 3 1 true] ∧
      read_through (E := String) (.box 0) (m1.place (.box 0) ⟨1, 3⟩)
        = .ok 5 (m1.place (.box 0) ⟨1, 3⟩) := by
  obtain ⟨m1, h1, h2, -, h4⟩ :=
    (ctor_allocator_arg_uses_given_allocator (intEnv noFail) Machine.empty 3 5 1 rfl
      (by decide)).1 5 rfl
  exact ⟨m1, h1, h2, (h4 (.box 0)).2⟩

/-- C15: in each of the four allocating constructors, when `allocate` throws `e`
the constructor throws `e` at once: the only call logged is the failed
`allocate` (no `construct`, no `deallocate`), storage and boxes are as before,
and no box is returned. -/
theorem ctor_allocation_failure_propagates (env : Env A T Args E) (m : Machine A T) (e : E) :
    (env.allocate_result m env.A_default = .error e →
      indirect.ctor_default env m
        = .throw e { m with log := m.log ++ [.allocate env.A_default none] }) ∧
    (∀ ts, env.allocate_result m env.A_default = .error e →
      indirect.ctor_in_place env ts m
        = .throw e { m with log := m.log ++ [.allocate env.A_default none] }) ∧
    (∀ al ts, env.allocate_result m al = .error e →
      indirect.ctor_allocator_arg env al ts m
        = .throw e { m with log := m.log ++ [.allocate al none] }) ∧
    (∀ other o, m.boxes other = some o → o.p_ ≠ nullptr →
      env.allocate_result m o.alloc_ = .error e →
      indirect.ctor_copy env other m
        = .throw e { m with log := m.log ++ [.allocate o.alloc_ none] }) := by
  refine ⟨?_, ?_, ?_, ?_⟩
  · intro h
    simp [indirect.ctor_default, allocator_traits.allocate, h, Outcome.bind]
  · intro ts h
    simp [indirect.ctor_in_place, allocator_traits.allocate, h, Outcome.bind]
  · intro al ts h
    simp [indirect.ctor_allocator_arg, allocator_traits.allocate, h, Outcome.bind]
  · intro other o hb hp h
    exact ctor_copy_alloc_throw env m other o e hb hp h

/-- C15 with an allocator that has no storage left, next to the box `a`. -/
theorem ctor_allocation_failure_propagates_witness :
    indirect.ctor_default noMemEnv demo_a
      = .throw "bad_alloc" { demo_a with log := demo_a.log ++ [.allocate 0 none] } ∧
    indirect.ctor_copy noMemEnv (.box 0) demo_a
      = .throw "bad_alloc" { demo_a with log := demo_a.log ++ [.allocate 0 none] } := by
  obtain ⟨h1, -, -, h4⟩ := ctor_allocation_failure_propagates noMemEnv demo_a "bad_alloc"
  exact ⟨h1 rfl, h4 (.box 0) ⟨1, 0⟩ rfl (by decide) rfl⟩

/-- C16: `reset()` on an Engaged box logs exactly `destroy` then `deallocate` of
the owned pointer through the box's allocator, frees the storage and leaves
`p_` null; on a Valueless box it changes nothing; a second `reset()` changes
nothing; the destructor is `reset()` followed by the end of the object. -/
theorem dtor_releases_once (m : Machine A T) (r : Ref) (b : indirect A)
    (hb : m.boxes r = some b) :
    ∃ m1, indirect.reset (E := E) r m = .ok () m1 ∧
      indirect.dtor (E := E) r m = .ok () (m1.drop r) ∧
      m1.boxes r = some ⟨nullptr, b.alloc_⟩ ∧
      m1.log = m.log ++
        (if b.p_ = nullptr then []
         else [.destroy b.alloc_ b.p_, .deallocate b.alloc_ b.p_]) ∧
      (b.p_ = nullptr → m1 = m) ∧
      (b.p_ ≠ nullptr → m1.cells b.p_ = none) ∧
      indirect.reset (E := E) r m1 = .ok () m1 := by
  by_cases hp : b.p_ = nullptr
  · have hb2 : b = ⟨nullptr, b.alloc_⟩ := by
      cases b
      simp at hp
      simp [hp]
    refine ⟨m, ?_, ?_, ?_, ?_, fun _ => rfl, fun h => absurd hp h, ?_⟩
    · simp [indirect.reset, hb, hp]
    · simp [indirect.dtor, indirect.reset, hb, hp, Outcome.bind]
    · rw [hb, ← hb2]
    · simp [hp]
    · simp [indirect.reset, hb, hp]
  · let m1 : Machine A T :=
      (allocator_traits.deallocate b.alloc_ b.p_
        (allocator_traits.destroy b.alloc_ b.p_ m)).setP r nullptr
    have h1 : m1.boxes r = some ⟨nullptr, b.alloc_⟩ := by
      simp [m1, Machine.setP, allocator_traits.deallocate, allocator_traits.destroy, hb]
    refine ⟨m1, ?_, ?_, h1, ?_, fun h => absurd h hp, fun _ => ?_, ?_⟩
    · simp [m1, indirect.reset, hb, hp]
    · simp [m1, indirect.dtor, indirect.reset, hb, hp, Outcome.bind]
    · simp [m1, Machine.setP, allocator_traits.deallocate, allocator_traits.destroy, hp]
    · simp [m1, Machine.setP, allocator_traits.deallocate, allocator_traits.destroy]
    · simp [indirect.reset, h1]

/-- C16 at the box `a` (allocator 1, pointer 1). -/
theorem dtor_releases_once_witness :
    ∃ m1, indirect.reset (E := String) (.box 0) demo_ab = .ok () m1 ∧
      indirect.dtor (E := String) (.box 0) demo_ab = .ok () (m1.drop (.box 0)) ∧
      m1.log = demo_ab.log ++ [.destroy 1 1, .deallocate 1 1] ∧
      indirect.reset (E := String) (.box 0) m1 = .ok () m1 := by
  obtain ⟨m1, h1, h2, -, h4, -, -, h7⟩ :=
    dtor_releases_once (E := String) demo_ab (.box 0) ⟨1, 1⟩ rfl
  exact ⟨m1, h1, h2, h4, h7⟩

/-- C17: for a Valueless `a` and an Engaged `b`, copy assignment `a = b` (when
allocation and the copy succeed) returns normally with `a` Engaged, `*a == *b`,
`b` unchanged, and only one `allocate` and one `construct` logged; move
assignment `a = move(b)` returns normally with `a` owning `b`'s former pointer,
`b` Valueless, and no call logged. -/
theorem assign_to_valueless (env : Env A T Args E) (m : Machine A T) (a b : Nat)
    (ao bo : indirect A)
    (ha : m.boxes (.box a) = some ao) (hav : ao.p_ = nullptr)
    (hb : m.boxes (.box b) = some bo) (hp : bo.p_ ≠ nullptr) :
    (∀ v mem, m.load bo.p_ = some v → env.allocate_result m bo.alloc_ = .ok mem →
      mem ≠ nullptr → m.cells mem = none → env.T_construct (.copy v) = .ok v →
      ∃ m1, indirect.assign_copy env a b m = .ok () m1 ∧
        m1.boxes (.box a) = some ⟨mem, ao.alloc_⟩ ∧ m1.boxes (.box b) = some bo ∧
        read_through (E := E) (.box a) m1 = .ok v m1 ∧
        read_through (E := E) (.box b) m1 = .ok v m1 ∧
        m1.log = m.log ++ [.allocate bo.alloc_ (some mem), .construct bo.alloc_ mem true]) ∧
    (∃ m2, indirect.assign_move (E := E) (.box a) (.box b) m = .ok () m2 ∧
      m2.boxes (.box a) = some ⟨bo.p_, bo.alloc_⟩ ∧
      m2.boxes (.box b) = some ⟨nullptr, bo.alloc_⟩ ∧
      m2.log = m.log ∧ m2.cells = m.cells) := by
  have hab : a ≠ b := by
    intro h
    subst h
    rw [ha] at hb
    injection hb with hb
    subst hb
    exact hp hav
  have hab1 : Ref.box a ≠ Ref.box b := fun h => hab (by injection h)
  have hba1 : Ref.box b ≠ Ref.box a := fun h => hab1 h.symm
  constructor
  · intro v mem hv halloc hnn hfresh hcopy
    have hne := fresh_ne_live m _ mem v hv hfresh
    obtain ⟨c, al0, hc, hobj⟩ := load_some_cell m _ v hv
    refine ⟨_, assign_copy_ok env m a b ao bo v v mem ha hb hp hv halloc hne hcopy, ?_, ?_, ?_, ?_, ?_⟩
    · simp [upd]
    · simp [upd, hba1, hb]
    · simp [read_through, indirect.op_star_const, upd, hnn, Outcome.bind, hav, Machine.load]
    · simp [read_through, indirect.op_star_const, upd, hba1, hb, hp, Outcome.bind, hav,
        Machine.load, hne, hc, hobj]
    · simp [hav]
  · refine ⟨((m.setAlloc (.box a) bo.alloc_).setP (.box b) nullptr).setP (.box a) bo.p_,
      ?_, ?_, ?_, rfl, rfl⟩
    · simp [indirect.assign_move, ha, hb, hp, indirect.reset, hav, Outcome.bind,
        Machine.setAlloc, hba1]
    · simp [Machine.setP, Machine.setAlloc, hab1, ha]
    · simp [Machine.setP, Machine.setAlloc, hba1, hb]

/-- C17 at the moved-from box `a` and the box `b` holding 7. -/
theorem assign_to_valueless_witness :
    (∃ m1, indirect.assign_copy (intEnv noFail) 0 1 demo_moved = .ok () m1 ∧
      read_through (E := String) (.box 0) m1 = .ok 7 m1 ∧
      m1.log = demo_moved.log ++ [.allocate 2 (some 3), .construct 2 3 true]) ∧
    (∃ m2, indirect.assign_move (E := String) (.box 0) (.box 1) demo_moved = .ok () m2 ∧
      m2.boxes (.box 0) = some ⟨2, 2⟩ ∧ m2.boxes (.box 1) = some ⟨0, 2⟩ ∧
      m2.log = demo_moved.log) := by
  obtain ⟨h1, m2, e2, h2, h3, h4, -⟩ :=
    assign_to_valueless (intEnv noFail) demo_moved 0 1 ⟨0, 1⟩ ⟨2, 2⟩ rfl rfl rfl (by decide)
  obtain ⟨m1, e1, -, -, r1, -, l1⟩ := h1 7 3 rfl rfl (by decide) rfl rfl
  exact ⟨⟨m1, e1, r1, l1⟩, ⟨m2, e2, h2, h3, h4⟩⟩

/-- C18: for an Engaged box `a`, `a = std::move(a)` passes the `assert`, destroys
and deallocates `a`'s `T` through `a`'s allocator, and returns with `a` Valueless:
the value is gone and no other box changes. -/
theorem self_move_assign_loses_value (m : Machine A T) (a : Ref) (ao : indirect A)
    (ha : m.boxes a = some ao) (hp : ao.p_ ≠ nullptr) :
    ∃ m1, indirect.assign_move (E := E) a a m = .ok () m1 ∧
      m1.boxes a = some ⟨nullptr, ao.alloc_⟩ ∧
      indirect.valueless_after_move (E := E) a m1 = .ok true m1 ∧
      m1.log = m.log ++ [.destroy ao.alloc_ ao.p_, .deallocate ao.alloc_ ao.p_] ∧
      m1.cells ao.p_ = none ∧ m1.load ao.p_ = none ∧
      (∀ r, r ≠ a → m1.boxes r = m.boxes r) := by
  let m1 : Machine A T :=
    (((((allocator_traits.deallocate ao.alloc_ ao.p_
      (allocator_traits.destroy ao.alloc_ ao.p_ m)).setP a nullptr).setAlloc a
        ao.alloc_).setP a nullptr).setP a nullptr)
  have h1 : m1.boxes a = some ⟨nullptr, ao.alloc_⟩ := by
    simp [m1, Machine.setP, Machine.setAlloc, allocator_traits.deallocate,
      allocator_traits.destroy, ha]
  refine ⟨m1, ?_, h1, ?_, ?_, ?_, ?_, ?_⟩
  · simp [m1, indirect.assign_move, ha, hp, indirect.reset, Outcome.bind, Machine.setP,
      Machine.setAlloc, allocator_traits.deallocate, allocator_traits.destroy]
  · simp [indirect.valueless_after_move, h1]
  · simp [m1, Machine.setP, Machine.setAlloc, allocator_traits.deallocate,
      allocator_traits.destroy]
  · simp [m1, Machine.setP, Machine.setAlloc, allocator_traits.deallocate,
      allocator_traits.destroy]
  · simp [m1, Machine.load, Machine.setP, Machine.setAlloc, allocator_traits.deallocate,
      allocator_traits.destroy]
  · intro r hr
    simp [m1, Machine.setP, Machine.setAlloc, allocator_traits.deallocate,
      allocator_traits.destroy, hr]

/-- C18 at the box `a` holding 5. -/
theorem self_move_assign_loses_value_witness :
    ∃ m1, indirect.assign_move (E := String) (.box 0) (.box 0) demo_a = .ok () m1 ∧
      indirect.valueless_after_move (E := String) (.box 0) m1 = .ok true m1 ∧
      m1.log = demo_a.log ++ [.destroy 0 1, .deallocate 0 1] ∧ m1.load 1 = none := by
  obtain ⟨m1, h1, -, h3, h4, -, h6, -⟩ :=
    self_move_assign_loses_value (E := String) demo_a (.box 0) ⟨1, 0⟩ rfl (by decide)
  exact ⟨m1, h1, h3, h4, h6⟩

/-- C19: after a successful `a = b` between Engaged boxes, `a` keeps its own
allocator while pointing to storage that was allocated and constructed through
`b`'s allocator (the copy held by `tmp`), and `a`'s previous `T` was destroyed
and deallocated through that same copy of `b`'s allocator. -/
theorem assign_copy_keeps_allocator (env : Env A T Args E) (m : Machine A T) (a b : Nat)
    (ao bo : indirect A) (v w : T) (mem : Ptr)
    (ha : m.boxes (.box a) = some ao) (hap : ao.p_ ≠ nullptr)
    (hb : m.boxes (.box b) = some bo) (hp : bo.p_ ≠ nullptr) (hv : m.load bo.p_ = some v)
    (halloc : env.allocate_result m bo.alloc_ = .ok mem) (hfresh : m.cells mem = none)
    (hcopy : env.T_construct (.copy v) = .ok w) :
    ∃ m1, indirect.assign_copy env a b m = .ok () m1 ∧
      m1.boxes (.box a) = some ⟨mem, ao.alloc_⟩ ∧
      m1.log = m.log ++ [.allocate bo.alloc_ (some mem), .construct bo.alloc_ mem true,
        .destroy bo.alloc_ ao.p_, .deallocate bo.alloc_ ao.p_] ∧
      (ao.p_ ≠ mem → m1.cells mem = some ⟨bo.alloc_, some (bo.alloc_, w)⟩) ∧
      m1.cells ao.p_ = none := by
  have hne := fresh_ne_live m _ mem v hv hfresh
  refine ⟨_, assign_copy_ok env m a b ao bo v w mem ha hb hp hv halloc hne hcopy, ?_, ?_, ?_, ?_⟩
  · simp [upd]
  · simp [hap]
  · intro h
    simp [hap, upd, h.symm]
  · simp [hap]

/-- C19 at `a` (allocator 1, holding 5) and `b` (allocator 2, holding 7). -/
theorem assign_copy_keeps_allocator_witness :
    ∃ m1, indirect.assign_copy (intEnv noFail) 0 1 demo_ab = .ok () m1 ∧
      m1.boxes (.box 0) = some ⟨3, 1⟩ ∧
      m1.log = demo_ab.log ++ [.allocate 2 (some 3), .construct 2 3 true,
        .destroy 2 1, .deallocate 2 1] := by
  obtain ⟨m1, h1, h2, h3, -, -⟩ :=
    assign_copy_keeps_allocator (intEnv noFail) demo_ab 0 1 ⟨1, 1⟩ ⟨2, 2⟩ 7 7 3
      rfl (by decide) rfl (by decide) rfl rfl rfl rfl
  exact ⟨m1, h1, h2, h3⟩

/-- C20: in every state reachable by public operations that complete (by
returning or by throwing), under the allocator contract, the Engaged boxes are
finitely many and as many as the successful `allocate` calls not yet matched by
a `deallocate`; every allocated address is owned by exactly one Engaged box and
every Engaged box owns allocated storage; a successful copy assignment to an
Engaged box logs one `allocate` and one `deallocate` and keeps the count; and
when no box is Engaged the count is zero and nothing is allocated. -/
theorem leak_freedom (env : Env A T Args E) (hf : env.Fresh) (m : Machine A T)
    (hr : Reachable env m) :
    (∃ s : Finset Ref, (∀ r, r ∈ s ↔ m.engaged r = true) ∧
      (s.card : Int) = m.outstanding) ∧
    (∀ p, m.allocated p = true → ∃! r, m.engaged r = true ∧ m.owner r = p) ∧
    (∀ r, m.engaged r = true → m.allocated (m.owner r) = true) ∧
    (∀ a b m1, m.engaged (.box a) = true → run env (.assign_copy a b) m = .ok () m1 →
      m1.outstanding = m.outstanding ∧
      ∃ al mem p, m1.log = m.log ++ [.allocate al (some mem), .construct al mem true,
        .destroy al p, .deallocate al p]) ∧
    ((∀ r, m.engaged r = false) → m.outstanding = 0 ∧ ∀ p, m.allocated p = false) := by
  have hs := reachable_sound env hf m hr
  obtain ⟨s, hs1, hs2⟩ := hs.1.counted
  have hs1e : ∀ r, r ∈ s ↔ m.engaged r = true := by
    intro r
    rw [hs1 r, engaged_iff_owner]
  refine ⟨⟨s, hs1e, hs2⟩, ?_, ?_, ?_, ?_⟩
  · intro p hp
    obtain ⟨hp0, r, hr1⟩ := (hs.1.owned p).1 hp
    refine ⟨r, ⟨(engaged_iff_owner m r).2 (by rw [hr1]; exact hp0), hr1⟩, ?_⟩
    rintro r2 ⟨-, hr2⟩
    exact (hs.1.unique r r2 (by rw [hr1]; exact hp0) (by rw [hr1, hr2])).symm
  · intro r he
    exact (hs.1.owned _).2 ⟨(engaged_iff_owner m r).1 he, r, rfl⟩
  · intro a b m1 he hrun
    simp only [run] at hrun
    obtain ⟨ao1, hao1, hap1⟩ := engaged_some m _ he
    rcases assign_copy_cases env a b m with hn | ⟨ao, bo, ha, hb, hp, h⟩
    · rw [hrun] at hn
      simp [Outcome.final] at hn
    · rw [hao1] at ha
      injection ha with ha
      subst ha
      rcases h with ⟨e, h1, hc⟩ | ⟨mem, e, h1, hc⟩ | ⟨mem, w, h1, hc⟩
      · rw [hc] at hrun
        cases hrun
      · rw [hc] at hrun
        cases hrun
      · rw [hc] at hrun
        injection hrun with _ hm1
        subst hm1
        refine ⟨?_, bo.alloc_, mem, ao1.p_, ?_⟩
        · simp [Machine.outstanding, hap1, balance_append, Machine.balance]
        · simp [hap1]
  · intro hall
    have hempty : s = ∅ := by
      apply Finset.eq_empty_of_forall_not_mem
      intro r hmem
      have := (hs1e r).1 hmem
      rw [hall r] at this
      cases this
    refine ⟨?_, ?_⟩
    · rw [← hs2, hempty]
      rfl
    · intro p
      cases hal : m.allocated p with
      | false => rfl
      | true =>
        obtain ⟨hp0, r, hr1⟩ := (hs.1.owned p).1 hal
        have := (engaged_iff_owner m r).2 (by rw [hr1]; exact hp0)
        rw [hall r] at this
        cases this

/-- C20 at the reachable state with `a` moved from and `b`, `c` Engaged: two
outstanding allocations. -/
theorem leak_freedom_witness :
    (∃ s : Finset Ref, (∀ r, r ∈ s ↔ demo_moved.engaged r = true) ∧
      (s.card : Int) = demo_moved.outstanding) ∧
    demo_moved.outstanding = 2 ∧
    (∃! r, demo_moved.engaged r = true ∧ demo_moved.owner r = 1) := by
  obtain ⟨h1, h2, -, -, -⟩ :=
    leak_freedom (intEnv noFail) (intEnv_fresh noFail) demo_moved reachable_demo_moved
  exact ⟨h1, rfl, h2 1 rfl⟩

end xyz
